import Mathlib

/-!
# update-email-statuses: the status reconciliation query

A shallow embedding of `src/update-email-statuses/index.js`.  The lambda runs
one SQL statement (`updateQuery`) made of three common table expressions and an
`UPDATE ... FROM`, then reports `rowCount` and `moreToProcess`.

Tables are lists of rows in scan order.  Identifiers are natural numbers,
status codes and timestamps are integers.  A nullable column is an `Option`.
Where SQL leaves an order open (a `LIMIT` without `ORDER BY`, rows that tie in
an `ORDER BY`), the embedding takes scan order.
-/

namespace EmailStatus

/-- One row of `marketing_comms.queue` (the columns the lambdas of this
repository read or write). -/
structure QueueRow where
  id : Nat
  resendEmailId : Option Nat
  statusId : Int
  categoryId : Int
  createdAt : Int
  lastEmailSentAt : Option Int
  updatedAt : Int
deriving DecidableEq, Repr

/-- One row of `marketing_comms.email_events`, as `process-email-events`
inserts it: `statusId` is what `getStatusId` returned (possibly null),
`createdAt` is the insert time of the row. -/
structure EmailEvent where
  resendEmailId : Nat
  statusId : Option Int
  webhookReceivedAt : Int
  createdAt : Int
deriving DecidableEq, Repr

/-- The two time values one execution of the statement reads: `NOW()` (also
`CURRENT_TIMESTAMP`) and `NOW() - INTERVAL '6 months'`. -/
structure Clock where
  now : Int
  sixMonthsAgo : Int
deriving DecidableEq, Repr

/-- The list of `"statusId" IN (11, 5, 3, 2, 10, 4)`. -/
def openStatuses : List Int := [11, 5, 3, 2, 10, 4]

/-- The bound of `LIMIT 10000` in `recent_queue`. -/
def maxCandidates : Nat := 10000

/-- The bound of `LIMIT 3000` in `updates_needed`. -/
def maxApplyBatch : Nat := 3000

/-- The `WHERE` clause of `recent_queue`. -/
def eligible (c : Clock) (q : QueueRow) : Bool :=
  decide (q.statusId ∈ openStatuses) && decide (c.sixMonthsAgo ≤ q.createdAt)

/-- A row of the CTE `recent_queue`. -/
structure RecentRow where
  id : Nat
  resendEmailId : Option Nat
  statusId : Int
deriving DecidableEq, Repr

/-- The rows of the queue that pass the `WHERE` clause of `recent_queue`,
before the `LIMIT`. -/
def eligibleRows (store : List QueueRow) (c : Clock) : List QueueRow :=
  store.filter (eligible c)

/-- The CTE `recent_queue`. -/
def recent_queue (store : List QueueRow) (c : Clock) : List RecentRow :=
  ((eligibleRows store c).take maxCandidates).map
    (fun q => { id := q.id, resendEmailId := q.resendEmailId, statusId := q.statusId })

/-- The `CASE ee."statusId" ... END as priority_order` expression: null when
no branch matches. -/
def priority_order (s : Option Int) : Option Nat :=
  if s = some 7 then some 1
  else if s = some 6 then some 1
  else if s = some 8 then some 2
  else if s = some 9 then some 3
  else if s = some 4 then some 4
  else if s = some 5 then some 5
  else none

/-- The list of `ee."statusId" IN (7, 6, 8, 9, 4, 5)`. -/
def rankedStatuses : List Int := [7, 6, 8, 9, 4, 5]

/-- A row of `relevant_events` while it is being sorted: the selected columns
and the sort column `ee."createdAt"`. -/
structure RankedEvent where
  resendEmailId : Nat
  event_status_id : Int
  webhookReceivedAt : Int
  priority_order : Option Nat
  createdAt : Int
deriving DecidableEq, Repr

/-- The select list of `relevant_events` for an event whose status is `s`. -/
def rankRow (e : EmailEvent) (s : Int) : RankedEvent :=
  { resendEmailId := e.resendEmailId, event_status_id := s,
    webhookReceivedAt := e.webhookReceivedAt,
    priority_order := priority_order (some s), createdAt := e.createdAt }

/-- The `FROM ... WHERE` part of `relevant_events` with its select list: events
with a status in the list and a `resendEmailId` that occurs in `recent_queue`. -/
def rankedEvents (rq : List RecentRow) (events : List EmailEvent) : List RankedEvent :=
  events.filterMap (fun e =>
    match e.statusId with
    | some s =>
      if s ∈ rankedStatuses ∧ some e.resendEmailId ∈ rq.map (fun q => q.resendEmailId) then
        some (rankRow e s)
      else none
    | none => none)

/-- Ascending order on a nullable integer column, nulls last. -/
def prioLe : Option Nat → Option Nat → Bool
  | some a, some b => decide (a ≤ b)
  | _, none => true
  | none, some _ => false

/-- The order of `ORDER BY ee."resendEmailId", priority_order ASC,
ee."createdAt" DESC`: `a` may stand before `b`. -/
def orderLe (a b : RankedEvent) : Bool :=
  decide (a.resendEmailId < b.resendEmailId) ||
  (decide (a.resendEmailId = b.resendEmailId) &&
    ((prioLe a.priority_order b.priority_order && !prioLe b.priority_order a.priority_order) ||
     (prioLe a.priority_order b.priority_order && prioLe b.priority_order a.priority_order &&
        decide (b.createdAt ≤ a.createdAt))))

/-- The relation sorted by. -/
def OrderLe (a b : RankedEvent) : Prop := orderLe a b = true

instance : DecidableRel OrderLe := fun a b => inferInstanceAs (Decidable (orderLe a b = true))

/-- The `ORDER BY` of `relevant_events`. -/
def orderBy (l : List RankedEvent) : List RankedEvent :=
  List.insertionSort OrderLe l

/-- The `DISTINCT ON (ee."resendEmailId")` of `relevant_events` on sorted input:
a row is kept when its `resendEmailId` differs from that of the row before. -/
def distinctOn (prev : Option Nat) : List RankedEvent → List RankedEvent
  | [] => []
  | r :: rest =>
    if prev = some r.resendEmailId then distinctOn prev rest
    else r :: distinctOn (some r.resendEmailId) rest

/-- The CTE `relevant_events`. -/
def relevant_events (rq : List RecentRow) (events : List EmailEvent) : List RankedEvent :=
  distinctOn none (orderBy (rankedEvents rq events))

/-- A row of the CTE `updates_needed`. -/
structure UpdateRow where
  queue_id : Nat
  new_status_id : Int
  last_email_sent_at : Int
  current_status_id : Int
deriving DecidableEq, Repr

/-- The select list of `updates_needed` for a joined pair of rows. -/
def joinRow (q : RecentRow) (e : RankedEvent) : UpdateRow :=
  { queue_id := q.id, new_status_id := e.event_status_id,
    last_email_sent_at := e.webhookReceivedAt, current_status_id := q.statusId }

/-- The join of `updates_needed` with its `WHERE`, before the `LIMIT`. -/
def deltas (rq : List RecentRow) (re : List RankedEvent) : List UpdateRow :=
  rq.flatMap (fun q =>
    re.filterMap (fun e =>
      if q.resendEmailId = some e.resendEmailId ∧ q.statusId ≠ e.event_status_id then
        some (joinRow q e)
      else none))

/-- The CTE `updates_needed`. -/
def updates_needed (rq : List RecentRow) (re : List RankedEvent) : List UpdateRow :=
  (deltas rq re).take maxApplyBatch

/-- What the `UPDATE` does to one row of the queue: the row is rewritten when a
row of `updates_needed` has its id. -/
def updateRow (un : List UpdateRow) (now : Int) (q : QueueRow) : QueueRow :=
  match un.find? (fun u => decide (u.queue_id = q.id)) with
  | some u => { q with statusId := u.new_status_id,
                       lastEmailSentAt := some u.last_email_sent_at,
                       updatedAt := now }
  | none => q

/-- The result of a statement: the queue afterwards and `rowCount`. -/
structure QueryResult where
  store : List QueueRow
  rowCount : Nat
deriving DecidableEq, Repr

/-- The `UPDATE marketing_comms.queue q SET ... FROM updates_needed un
WHERE q.id = un.queue_id` on the queue as it is when the update runs. -/
def applyUpdate (un : List UpdateRow) (now : Int) (store : List QueueRow) : QueryResult :=
  { store := store.map (updateRow un now),
    rowCount := (store.filter (fun q => un.any (fun u => decide (u.queue_id = q.id)))).length }

/-- The rows of `updates_needed` for a queue, an event log and a clock. -/
def computeUpdates (store : List QueueRow) (events : List EmailEvent) (c : Clock) :
    List UpdateRow :=
  updates_needed (recent_queue store c) (relevant_events (recent_queue store c) events)

/-- The join of `updates_needed` before its `LIMIT`, for a queue, an event log
and a clock. -/
def computeDeltas (store : List QueueRow) (events : List EmailEvent) (c : Clock) :
    List UpdateRow :=
  deltas (recent_queue store c) (relevant_events (recent_queue store c) events)

/-- The whole statement `updateQuery`. -/
def updateQuery (store : List QueueRow) (events : List EmailEvent) (c : Clock) : QueryResult :=
  applyUpdate (computeUpdates store events c) c.now store

/-- The environment variables the handler tests. -/
structure Env where
  DB_USER : Option String
  DB_PASSWORD : Option String
deriving DecidableEq, Repr

/-- What the database does during one invocation. -/
inductive DbFault where
  | healthy
  | connectFails (message : String)
  | queryFails (message : String)
deriving DecidableEq, Repr

/-- The JSON body of a response. -/
structure Body where
  success : Bool
  batchSize : Option Nat
  moreToProcess : Option Bool
  error : Option String
deriving DecidableEq, Repr

/-- How an invocation of the handler ends. -/
inductive Outcome where
  | returned (statusCode : Nat) (body : Body)
  | thrown (message : String)
deriving DecidableEq, Repr

/-- JavaScript truthiness of an environment variable: set and not empty. -/
def truthy (v : Option String) : Bool :=
  match v with
  | some s => s != ""
  | none => false

/-- The handler of `update-email-statuses`: the outcome and the queue
afterwards. -/
def handler (env : Env) (fault : DbFault) (store : List QueueRow) (events : List EmailEvent)
    (c : Clock) : Outcome × List QueueRow :=
  if !truthy env.DB_USER || !truthy env.DB_PASSWORD then
    (Outcome.thrown "Database credentials not configured", store)
  else
    match fault with
    | DbFault.connectFails m =>
      (Outcome.returned 500
        { success := false, batchSize := none, moreToProcess := none, error := some m }, store)
    | DbFault.queryFails m =>
      (Outcome.returned 500
        { success := false, batchSize := none, moreToProcess := none, error := some m }, store)
    | DbFault.healthy =>
      let result := updateQuery store events c
      let moreToProcess := decide (result.rowCount > 0)
      (Outcome.returned 200
        { success := true, batchSize := some result.rowCount,
          moreToProcess := some moreToProcess, error := none }, result.store)

/-- The rows of `relevant_events` joined to a `resendEmailId`: the winning
event of the item, when there is one. -/
def winner (re : List RankedEvent) (rid : Option Nat) : Option RankedEvent :=
  re.find? (fun e => decide (rid = some e.resendEmailId))

/-- The row of `updates_needed` that a row of `recent_queue` gives, when it
gives one: its winning event has another status than the row. -/
def delta? (re : List RankedEvent) (q : RecentRow) : Option UpdateRow :=
  match winner re q.resendEmailId with
  | some w => if q.statusId ≠ w.event_status_id then some (joinRow q w) else none
  | none => none

/-- The projection of a queue row that `recent_queue` selects. -/
def toRecent (q : QueueRow) : RecentRow :=
  { id := q.id, resendEmailId := q.resendEmailId, statusId := q.statusId }

/-! ## Concrete queues and event logs -/

/-- A clock whose six-month cutoff is time 0. -/
def clock0 : Clock := { now := 1000, sixMonthsAgo := 0 }

/-- A queue of one item, sent (status 2), with Resend id 10. -/
def oneItem : List QueueRow :=
  [{ id := 1, resendEmailId := some 10, statusId := 2, categoryId := 0, createdAt := 5,
     lastEmailSentAt := none, updatedAt := 5 }]

/-- The item bounced at time 100 and was delivered at time 200. -/
def bouncedThenDelivered : List EmailEvent :=
  [{ resendEmailId := 10, statusId := some 7, webhookReceivedAt := 100, createdAt := 110 },
   { resendEmailId := 10, statusId := some 4, webhookReceivedAt := 200, createdAt := 210 }]

/-- Two rank-1 events of the item: the one observed later (bounced, at 100)
was inserted earlier (at 200) than the one observed earlier (complained, at 50,
inserted at 300). -/
def outOfOrderEvents : List EmailEvent :=
  [{ resendEmailId := 10, statusId := some 7, webhookReceivedAt := 100, createdAt := 200 },
   { resendEmailId := 10, statusId := some 6, webhookReceivedAt := 50, createdAt := 300 }]

/-- The item was delivered at time 200. -/
def deliveredOnce : List EmailEvent :=
  [{ resendEmailId := 10, statusId := some 4, webhookReceivedAt := 200, createdAt := 210 }]

/-- A queue of one item with status delivered (4) and Resend id 10. -/
def deliveredItem : List QueueRow :=
  [{ id := 1, resendEmailId := some 10, statusId := 4, categoryId := 0, createdAt := 5,
     lastEmailSentAt := some 200, updatedAt := 300 }]

/-- The only event of the item is a delivery-delayed event (5). -/
def delayedOnce : List EmailEvent :=
  [{ resendEmailId := 10, statusId := some 5, webhookReceivedAt := 400, createdAt := 410 }]

/-- A queue of two sent items of two categories (43 and 7). -/
def twoCategories : List QueueRow :=
  [{ id := 1, resendEmailId := some 10, statusId := 2, categoryId := 43, createdAt := 5,
     lastEmailSentAt := none, updatedAt := 5 },
   { id := 2, resendEmailId := some 20, statusId := 2, categoryId := 7, createdAt := 5,
     lastEmailSentAt := none, updatedAt := 5 }]

/-- Each of the two items was delivered. -/
def twoDelivered : List EmailEvent :=
  [{ resendEmailId := 10, statusId := some 4, webhookReceivedAt := 200, createdAt := 210 },
   { resendEmailId := 20, statusId := some 4, webhookReceivedAt := 220, createdAt := 230 }]

/-- A sent item (status 2) with id `i` and Resend id `i`. -/
def sentItem (i : Nat) : QueueRow :=
  { id := i, resendEmailId := some i, statusId := 2, categoryId := 0, createdAt := 5,
    lastEmailSentAt := none, updatedAt := 5 }

/-- A queue of `n` sent items, with the ids below `n`. -/
def sentItems (n : Nat) : List QueueRow :=
  (List.range n).map sentItem

/-- A delivered event (4) for the Resend id `i`. -/
def deliveredEvent (i : Nat) : EmailEvent :=
  { resendEmailId := i, statusId := some 4, webhookReceivedAt := 200, createdAt := 210 }

/-- One delivered event for each of the ids below `n`. -/
def deliveredEvents (n : Nat) : List EmailEvent :=
  (List.range n).map deliveredEvent

/-- A queue of one item, already bounced (status 7), with Resend id 10. -/
def bouncedItem : List QueueRow :=
  [{ id := 1, resendEmailId := some 10, statusId := 7, categoryId := 0, createdAt := 5,
     lastEmailSentAt := some 100, updatedAt := 1500 }]

/-- A queue of one sent item created at time 5, and a clock whose six-month
cutoff is time 50. -/
def lateClock : Clock := { now := 1000, sixMonthsAgo := 50 }

/-- The row with another `categoryId`. -/
def withCategory (g : QueueRow → Int) (q : QueueRow) : QueueRow :=
  { q with categoryId := g q }

/-- The row with another `statusId`. -/
def withStatus (g : QueueRow → Int) (q : QueueRow) : QueueRow :=
  { q with statusId := g q }

/-- Two events of the item that the rank table does not list: one stored with a
null status, one with status 3. -/
def unmappedEvents : List EmailEvent :=
  [{ resendEmailId := 10, statusId := none, webhookReceivedAt := 900, createdAt := 910 },
   { resendEmailId := 10, statusId := some 3, webhookReceivedAt := 920, createdAt := 930 }]

/-- The bounced event of `outOfOrderEvents`, delivered a second time and
inserted at time 400. -/
def bouncedAgain : EmailEvent :=
  { resendEmailId := 10, statusId := some 7, webhookReceivedAt := 100, createdAt := 400 }

/-- An environment with both credentials. -/
def envOk : Env := { DB_USER := some "user", DB_PASSWORD := some "secret" }

/-- An environment without `DB_USER`. -/
def envNoUser : Env := { DB_USER := none, DB_PASSWORD := some "secret" }

/-! ## The sort order -/

theorem prioLe_total (a b : Option Nat) : prioLe a b = true ∨ prioLe b a = true := by
  cases a <;> cases b <;> simp [prioLe]
  omega

theorem prioLe_trans {a b c : Option Nat} (h1 : prioLe a b = true) (h2 : prioLe b c = true) :
    prioLe a c = true := by
  cases a <;> cases b <;> cases c <;> simp_all [prioLe]
  omega

theorem orderLe_total (a b : RankedEvent) : orderLe a b = true ∨ orderLe b a = true := by
  rcases Nat.lt_trichotomy a.resendEmailId b.resendEmailId with h | h | h
  · left; simp [orderLe, h]
  · rcases Bool.eq_false_or_eq_true (prioLe a.priority_order b.priority_order) with hp | hp <;>
    rcases Bool.eq_false_or_eq_true (prioLe b.priority_order a.priority_order) with hq | hq
    · rcases Int.le_total a.createdAt b.createdAt with hc | hc
      · right; simp [orderLe, h, hp, hq, hc]
      · left; simp [orderLe, h, hp, hq, hc]
    · left; simp [orderLe, h, hp, hq]
    · right; simp [orderLe, h, hp, hq]
    · rcases prioLe_total a.priority_order b.priority_order with h' | h' <;> simp_all
  · right; simp [orderLe, h]

theorem orderLe_trans {a b c : RankedEvent} (h1 : orderLe a b = true) (h2 : orderLe b c = true) :
    orderLe a c = true := by
  simp only [orderLe, Bool.or_eq_true, Bool.and_eq_true, decide_eq_true_eq, Bool.not_eq_true'] at *
  rcases h1 with h1 | ⟨e1, h1⟩
  · rcases h2 with h2 | ⟨e2, h2⟩
    · left; omega
    · left; omega
  · rcases h2 with h2 | ⟨e2, h2⟩
    · left; omega
    · right
      refine ⟨by omega, ?_⟩
      rcases h1 with ⟨p1, q1⟩ | ⟨⟨p1, q1⟩, c1⟩ <;> rcases h2 with ⟨p2, q2⟩ | ⟨⟨p2, q2⟩, c2⟩
      · left
        refine ⟨prioLe_trans p1 p2, ?_⟩
        by_contra hcon
        have hcon' : prioLe c.priority_order a.priority_order = true := by simpa using hcon
        have := prioLe_trans p2 hcon'
        simp [this] at q1
      · left
        refine ⟨prioLe_trans p1 p2, ?_⟩
        by_contra hcon
        have hcon' : prioLe c.priority_order a.priority_order = true := by simpa using hcon
        have := prioLe_trans p2 hcon'
        simp [this] at q1
      · left
        refine ⟨prioLe_trans p1 p2, ?_⟩
        by_contra hcon
        have hcon' : prioLe c.priority_order a.priority_order = true := by simpa using hcon
        have := prioLe_trans hcon' p1
        simp [this] at q2
      · right
        exact ⟨⟨prioLe_trans p1 p2, prioLe_trans q2 q1⟩, by omega⟩

instance : IsTotal RankedEvent OrderLe := ⟨orderLe_total⟩
instance : IsTrans RankedEvent OrderLe := ⟨fun _ _ _ h1 h2 => orderLe_trans h1 h2⟩

theorem orderBy_sorted (l : List RankedEvent) : List.Sorted OrderLe (orderBy l) :=
  List.sorted_insertionSort OrderLe l

theorem orderBy_perm (l : List RankedEvent) : List.Perm (orderBy l) l :=
  List.perm_insertionSort OrderLe l

theorem mem_orderBy {l : List RankedEvent} {e : RankedEvent} : e ∈ orderBy l ↔ e ∈ l :=
  (orderBy_perm l).mem_iff

/-! ## The resolver: DISTINCT ON over the sorted rows -/

theorem find_distinctOn (rid : Option Nat) :
    ∀ (l : List RankedEvent) (prev : Option Nat), (prev = none ∨ prev ≠ rid) →
      (distinctOn prev l).find? (fun e => decide (rid = some e.resendEmailId)) =
        l.find? (fun e => decide (rid = some e.resendEmailId)) := by
  intro l
  induction l with
  | nil => intro prev _; rfl
  | cons r rest ih =>
    intro prev hprev
    by_cases hp : prev = some r.resendEmailId
    · have hne : rid ≠ some r.resendEmailId := by
        rcases hprev with h | h
        · rw [h] at hp; cases hp
        · intro h'; exact h (hp.trans h'.symm)
      simp only [distinctOn, hp, if_true, List.find?_cons, hne, decide_False]
      rw [← hp]
      exact ih prev hprev
    · simp only [distinctOn, hp, if_false, List.find?_cons]
      by_cases hr : rid = some r.resendEmailId
      · simp [hr]
      · simp only [hr, decide_False]
        exact ih (some r.resendEmailId) (Or.inr (fun h => hr h.symm))

theorem winner_relevant_events (rq : List RecentRow) (events : List EmailEvent)
    (rid : Option Nat) :
    winner (relevant_events rq events) rid =
      (orderBy (rankedEvents rq events)).find? (fun e => decide (rid = some e.resendEmailId)) := by
  unfold winner relevant_events
  exact find_distinctOn rid _ none (Or.inl rfl)

theorem distinctOn_sublist : ∀ (l : List RankedEvent) (prev : Option Nat),
    List.Sublist (distinctOn prev l) l := by
  intro l
  induction l with
  | nil => intro prev; exact List.Sublist.slnil
  | cons r rest ih =>
    intro prev
    by_cases hp : prev = some r.resendEmailId
    · simp only [distinctOn, hp, if_true]
      rw [← hp]
      exact (ih prev).cons r
    · simp only [distinctOn, hp, if_false]
      exact (ih _).cons₂ r

theorem distinctOn_strict : ∀ (l : List RankedEvent) (prev : Option Nat),
    List.Pairwise (fun a b => a.resendEmailId ≤ b.resendEmailId) l →
    (∀ k, prev = some k → ∀ e ∈ l, k ≤ e.resendEmailId) →
    List.Pairwise (fun a b => a.resendEmailId < b.resendEmailId) (distinctOn prev l) ∧
    (∀ k, prev = some k → ∀ e ∈ distinctOn prev l, k < e.resendEmailId) := by
  intro l
  induction l with
  | nil => intro prev _ _; simp [distinctOn]
  | cons r rest ih =>
    intro prev hpw hprev
    rw [List.pairwise_cons] at hpw
    by_cases hp : prev = some r.resendEmailId
    · simp only [distinctOn, hp, if_true]
      rw [← hp]
      exact ih prev hpw.2 (fun k hk e he => hprev k hk e (List.mem_cons_of_mem _ he))
    · simp only [distinctOn, hp, if_false]
      have h := ih (some r.resendEmailId) hpw.2 (fun k hk e he => by
        cases hk; exact hpw.1 e he)
      refine ⟨List.pairwise_cons.2 ⟨fun e he => h.2 _ rfl e he, h.1⟩, ?_⟩
      intro k hk e he
      have hkr : k < r.resendEmailId := by
        have := hprev k hk r (List.mem_cons_self _ _)
        rcases Nat.lt_or_eq_of_le this with h1 | h1
        · exact h1
        · exact absurd (by rw [hk, h1]) hp
      rcases List.mem_cons.1 he with h1 | h1
      · rw [h1]; exact hkr
      · exact Nat.lt_trans hkr (h.2 _ rfl e h1)

theorem orderLe_rid {a b : RankedEvent} (h : OrderLe a b) : a.resendEmailId ≤ b.resendEmailId := by
  unfold OrderLe orderLe at h
  simp only [Bool.or_eq_true, Bool.and_eq_true, decide_eq_true_eq] at h
  rcases h with h | ⟨h, _⟩ <;> omega

theorem relevant_events_distinct (rq : List RecentRow) (events : List EmailEvent) :
    List.Pairwise (fun a b => a.resendEmailId < b.resendEmailId) (relevant_events rq events) := by
  unfold relevant_events
  refine (distinctOn_strict _ none ?_ (fun k hk => by cases hk)).1
  exact (orderBy_sorted _).imp (fun h => orderLe_rid h)

theorem find_sorted_le {l : List RankedEvent} (hs : List.Sorted OrderLe l) {rid : Option Nat}
    {w : RankedEvent} (hw : l.find? (fun e => decide (rid = some e.resendEmailId)) = some w) :
    ∀ e ∈ l, rid = some e.resendEmailId → OrderLe w e := by
  rw [List.find?_eq_some] at hw
  obtain ⟨hpw, as, bs, rfl, has⟩ := hw
  intro e he hrid
  rcases List.mem_append.1 he with h | h
  · have := has e h
    simp [hrid] at this
  · rcases List.mem_cons.1 h with h | h
    · rw [h]; rcases orderLe_total w w with h' | h' <;> exact h'
    · have hs' : List.Pairwise OrderLe (w :: bs) := (List.pairwise_append.1 hs).2.1
      exact (List.pairwise_cons.1 hs').1 e h


theorem mem_rankedEvents {rq : List RecentRow} {events : List EmailEvent} {r : RankedEvent} :
    r ∈ rankedEvents rq events ↔
      ∃ e ∈ events, ∃ s, e.statusId = some s ∧ s ∈ rankedStatuses ∧
        some e.resendEmailId ∈ rq.map (fun q => q.resendEmailId) ∧ r = rankRow e s := by
  unfold rankedEvents
  rw [List.mem_filterMap]
  constructor
  · rintro ⟨e, he, h⟩
    refine ⟨e, he, ?_⟩
    cases hs : e.statusId with
    | none => rw [hs] at h; cases h
    | some s =>
      rw [hs] at h
      dsimp only at h
      by_cases hc : s ∈ rankedStatuses ∧ some e.resendEmailId ∈ rq.map (fun q => q.resendEmailId)
      · rw [if_pos hc] at h
        exact ⟨s, rfl, hc.1, hc.2, (Option.some.inj h).symm⟩
      · rw [if_neg hc] at h; cases h
  · rintro ⟨e, he, s, hs, h1, h2, rfl⟩
    refine ⟨e, he, ?_⟩
    rw [hs]
    dsimp only
    rw [if_pos ⟨h1, h2⟩]

theorem priority_order_ranked {s : Int} (h : s ∈ rankedStatuses) :
    ∃ n, priority_order (some s) = some n ∧ 1 ≤ n := by
  simp only [rankedStatuses, List.mem_cons, List.mem_singleton, List.not_mem_nil, or_false] at h
  rcases h with h | h | h | h | h | h <;> subst h <;> simp [priority_order]

theorem orderLe_prio {a b : RankedEvent} (h : OrderLe a b)
    (hrid : a.resendEmailId = b.resendEmailId) :
    prioLe a.priority_order b.priority_order = true := by
  unfold OrderLe orderLe at h
  simp only [Bool.or_eq_true, Bool.and_eq_true, decide_eq_true_eq, Bool.not_eq_true'] at h
  rcases h with h | ⟨_, h⟩
  · omega
  · rcases h with h | h
    · exact h.1
    · exact h.1.1

theorem orderLe_createdAt {a b : RankedEvent} (h : OrderLe a b)
    (hrid : a.resendEmailId = b.resendEmailId) (hp : a.priority_order = b.priority_order) :
    b.createdAt ≤ a.createdAt := by
  unfold OrderLe orderLe at h
  simp only [Bool.or_eq_true, Bool.and_eq_true, decide_eq_true_eq, Bool.not_eq_true'] at h
  rcases h with h | ⟨_, h⟩
  · omega
  · rcases h with h | h
    · rw [hp] at h
      rcases h with ⟨h1, h2⟩
      rw [h1] at h2; cases h2
    · exact h.2

/-- What the resolver selects for a `resendEmailId`: a row of the ranked
events of that id that stands before every other one in the sort order. -/
theorem winner_spec {rq : List RecentRow} {events : List EmailEvent} {rid : Option Nat}
    {w : RankedEvent} (hw : winner (relevant_events rq events) rid = some w) :
    w ∈ rankedEvents rq events ∧ rid = some w.resendEmailId ∧
      ∀ e ∈ rankedEvents rq events, e.resendEmailId = w.resendEmailId → OrderLe w e := by
  rw [winner_relevant_events] at hw
  have hmem := List.mem_of_find?_eq_some hw
  have hp := List.find?_some hw
  simp only [decide_eq_true_eq] at hp
  refine ⟨mem_orderBy.1 hmem, hp, ?_⟩
  intro e he hrid
  exact find_sorted_le (orderBy_sorted _) hw e (mem_orderBy.2 he) (by rw [hp, hrid])

/-- The resolver selects a row for every `resendEmailId` that has a ranked
event. -/
theorem winner_exists {rq : List RecentRow} {events : List EmailEvent} {e : RankedEvent}
    (he : e ∈ rankedEvents rq events) :
    ∃ w, winner (relevant_events rq events) (some e.resendEmailId) = some w := by
  rw [winner_relevant_events]
  cases h : (orderBy (rankedEvents rq events)).find?
      (fun x => decide (some e.resendEmailId = some x.resendEmailId)) with
  | some w => exact ⟨w, rfl⟩
  | none =>
    rw [List.find?_eq_none] at h
    have := h e (mem_orderBy.2 he)
    simp at this

theorem winner_none {rq : List RecentRow} {events : List EmailEvent} {rid : Option Nat}
    (h : winner (relevant_events rq events) rid = none) :
    ∀ e ∈ rankedEvents rq events, rid ≠ some e.resendEmailId := by
  rw [winner_relevant_events, List.find?_eq_none] at h
  intro e he
  have := h e (mem_orderBy.2 he)
  simpa using this

/-! ## The join of updates_needed -/

theorem recent_queue_eq (store : List QueueRow) (c : Clock) :
    recent_queue store c = ((eligibleRows store c).take maxCandidates).map toRecent := rfl

theorem joined_of_distinct (q : RecentRow) :
    ∀ (re : List RankedEvent),
      List.Pairwise (fun a b => a.resendEmailId < b.resendEmailId) re →
      re.filterMap (fun e =>
        if q.resendEmailId = some e.resendEmailId ∧ q.statusId ≠ e.event_status_id then
          some (joinRow q e) else none) = (delta? re q).toList := by
  intro re
  induction re with
  | nil => intro _; rfl
  | cons r rest ih =>
    intro hpw
    rw [List.pairwise_cons] at hpw
    by_cases hr : q.resendEmailId = some r.resendEmailId
    · have hrest : ∀ e ∈ rest, ¬ (q.resendEmailId = some e.resendEmailId ∧
          q.statusId ≠ e.event_status_id) := by
        intro e he hcon
        have h1 := hpw.1 e he
        have h2 : r.resendEmailId = e.resendEmailId := Option.some.inj (hr.symm.trans hcon.1)
        omega
      have hnil : rest.filterMap (fun e =>
          if q.resendEmailId = some e.resendEmailId ∧ q.statusId ≠ e.event_status_id then
            some (joinRow q e) else none) = [] := by
        rw [List.filterMap_eq_nil_iff]
        intro e he
        rw [if_neg (hrest e he)]
      have hw : winner (r :: rest) q.resendEmailId = some r := by
        simp [winner, hr]
      rw [List.filterMap_cons, hnil]
      unfold delta?
      rw [hw]
      by_cases hs : q.statusId ≠ r.event_status_id
      · simp [hr, hs]
      · simp [hr, hs]
    · have hw : winner (r :: rest) q.resendEmailId = winner rest q.resendEmailId := by
        simp [winner, hr]
      rw [List.filterMap_cons]
      have hif : (if q.resendEmailId = some r.resendEmailId ∧ q.statusId ≠ r.event_status_id then
            some (joinRow q r) else none) = none := if_neg (fun h => hr h.1)
      rw [hif]
      dsimp only
      rw [ih hpw.2]
      unfold delta?
      rw [hw]

theorem flatMap_toList {α β : Type} (f : α → Option β) :
    ∀ l : List α, l.flatMap (fun a => (f a).toList) = l.filterMap f := by
  intro l
  induction l with
  | nil => rfl
  | cons a l ih =>
    rw [List.flatMap_cons, ih, List.filterMap_cons]
    cases f a <;> rfl

theorem deltas_eq_filterMap (rq : List RecentRow) (re : List RankedEvent)
    (hre : List.Pairwise (fun a b => a.resendEmailId < b.resendEmailId) re) :
    deltas rq re = rq.filterMap (delta? re) := by
  unfold deltas
  rw [← flatMap_toList]
  congr 1
  funext q
  exact joined_of_distinct q re hre

theorem computeDeltas_eq (store : List QueueRow) (events : List EmailEvent) (c : Clock) :
    computeDeltas store events c =
      (recent_queue store c).filterMap (delta? (relevant_events (recent_queue store c) events)) :=
  deltas_eq_filterMap _ _ (relevant_events_distinct _ _)

theorem computeUpdates_eq (store : List QueueRow) (events : List EmailEvent) (c : Clock) :
    computeUpdates store events c = (computeDeltas store events c).take maxApplyBatch := rfl

theorem delta?_queue_id {re : List RankedEvent} {q : RecentRow} {u : UpdateRow}
    (h : delta? re q = some u) : u.queue_id = q.id := by
  unfold delta? at h
  cases hw : winner re q.resendEmailId with
  | none => rw [hw] at h; cases h
  | some w =>
    rw [hw] at h
    dsimp only at h
    by_cases hs : q.statusId ≠ w.event_status_id
    · rw [if_pos hs] at h
      rw [← Option.some.inj h]; rfl
    · rw [if_neg hs] at h; cases h

theorem delta?_eq_some {re : List RankedEvent} {q : RecentRow} {u : UpdateRow} :
    delta? re q = some u ↔
      ∃ w, winner re q.resendEmailId = some w ∧ q.statusId ≠ w.event_status_id ∧
        u = joinRow q w := by
  unfold delta?
  cases hw : winner re q.resendEmailId with
  | none => simp
  | some w =>
    dsimp only
    by_cases hs : q.statusId ≠ w.event_status_id
    · rw [if_pos hs]
      constructor
      · intro h; exact ⟨w, rfl, hs, (Option.some.inj h).symm⟩
      · rintro ⟨w', hw', _, rfl⟩
        rw [Option.some.inj hw']
    · rw [if_neg hs]
      constructor
      · intro h; cases h
      · rintro ⟨w', hw', hs', _⟩
        rw [← Option.some.inj hw'] at hs'
        exact absurd hs' hs

/-! ## The UPDATE -/

theorem candidates_sublist (store : List QueueRow) (c : Clock) :
    List.Sublist ((eligibleRows store c).take maxCandidates) store :=
  (List.take_sublist _ _).trans (List.filter_sublist _)

theorem recent_queue_ids_sublist (store : List QueueRow) (c : Clock) :
    List.Sublist ((recent_queue store c).map (fun r => r.id)) (store.map (fun q => q.id)) := by
  rw [recent_queue_eq, List.map_map]
  exact (candidates_sublist store c).map _

theorem filterMap_ids_sublist {re : List RankedEvent} :
    ∀ rq : List RecentRow,
      List.Sublist ((rq.filterMap (delta? re)).map (fun u => u.queue_id))
        (rq.map (fun r => r.id)) := by
  intro rq
  induction rq with
  | nil => exact List.Sublist.slnil
  | cons q rest ih =>
    rw [List.filterMap_cons]
    cases h : delta? re q with
    | none => exact ih.cons _
    | some u =>
      dsimp only
      rw [List.map_cons, List.map_cons, delta?_queue_id h]
      exact ih.cons₂ _

theorem computeDeltas_ids_sublist (store : List QueueRow) (events : List EmailEvent) (c : Clock) :
    List.Sublist ((computeDeltas store events c).map (fun u => u.queue_id))
      (store.map (fun q => q.id)) := by
  rw [computeDeltas_eq]
  exact (filterMap_ids_sublist _).trans (recent_queue_ids_sublist store c)

theorem computeUpdates_ids_sublist (store : List QueueRow) (events : List EmailEvent)
    (c : Clock) :
    List.Sublist ((computeUpdates store events c).map (fun u => u.queue_id))
      (store.map (fun q => q.id)) := by
  rw [computeUpdates_eq]
  exact ((List.take_sublist _ _).map _).trans (computeDeltas_ids_sublist store events c)

theorem eq_of_id_eq {store : List QueueRow} (hid : (store.map (fun q => q.id)).Nodup)
    {q q' : QueueRow} (hq : q ∈ store) (hq' : q' ∈ store) (h : q.id = q'.id) : q = q' :=
  List.inj_on_of_nodup_map hid hq hq' h

/-- The number of rows an `UPDATE` rewrites, when ids are a key of the queue
and the update rows have distinct ids that all occur in the queue. -/
theorem rowCount_eq_length {store : List QueueRow} (hid : (store.map (fun q => q.id)).Nodup)
    {un : List UpdateRow}
    (hsub : List.Sublist (un.map (fun u => u.queue_id)) (store.map (fun q => q.id))) (now : Int) :
    (applyUpdate un now store).rowCount = un.length := by
  unfold applyUpdate
  dsimp only
  have hun : (un.map (fun u => u.queue_id)).Nodup := hid.sublist hsub
  have h1 : ((store.filter (fun q => un.any (fun u => decide (u.queue_id = q.id)))).map
      (fun q => q.id)).Nodup :=
    hid.sublist ((List.filter_sublist _).map _)
  have hperm : List.Perm ((store.filter (fun q => un.any (fun u => decide (u.queue_id = q.id)))).map
      (fun q => q.id)) (un.map (fun u => u.queue_id)) := by
    rw [List.perm_ext_iff_of_nodup h1 hun]
    intro a
    simp only [List.mem_map, List.mem_filter, List.any_eq_true, decide_eq_true_eq]
    constructor
    · rintro ⟨q, ⟨_, u, hu, huq⟩, rfl⟩
      exact ⟨u, hu, huq⟩
    · rintro ⟨u, hu, rfl⟩
      have : u.queue_id ∈ store.map (fun q => q.id) :=
        hsub.subset (List.mem_map_of_mem _ hu)
      obtain ⟨q, hq, hqid⟩ := List.mem_map.1 this
      exact ⟨q, ⟨hq, u, hu, hqid.symm⟩, hqid⟩
  have := hperm.length_eq
  simpa using this

theorem rowCount_updateQuery {store : List QueueRow} (hid : (store.map (fun q => q.id)).Nodup)
    (events : List EmailEvent) (c : Clock) :
    (updateQuery store events c).rowCount =
      min maxApplyBatch (computeDeltas store events c).length := by
  unfold updateQuery
  rw [rowCount_eq_length hid (computeUpdates_ids_sublist store events c), computeUpdates_eq,
    List.length_take]

theorem updateRow_of_not_mem {un : List UpdateRow} {q : QueueRow} (now : Int)
    (h : ∀ u ∈ un, u.queue_id ≠ q.id) : updateRow un now q = q := by
  unfold updateRow
  have : un.find? (fun u => decide (u.queue_id = q.id)) = none := by
    rw [List.find?_eq_none]
    intro u hu
    simpa using h u hu
  rw [this]

/-- Every row of the join comes from a candidate row of the queue and its
winning event. -/
theorem mem_computeDeltas {store : List QueueRow} {events : List EmailEvent} {c : Clock}
    {u : UpdateRow} :
    u ∈ computeDeltas store events c ↔
      ∃ q ∈ (eligibleRows store c).take maxCandidates, ∃ w,
        winner (relevant_events (recent_queue store c) events) q.resendEmailId = some w ∧
        q.statusId ≠ w.event_status_id ∧ u = joinRow (toRecent q) w := by
  rw [computeDeltas_eq, List.mem_filterMap, recent_queue_eq]
  constructor
  · rintro ⟨r, hr, hd⟩
    obtain ⟨q, hq, rfl⟩ := List.mem_map.1 hr
    obtain ⟨w, hw, hs, hu⟩ := delta?_eq_some.1 hd
    exact ⟨q, hq, w, hw, hs, hu⟩
  · rintro ⟨q, hq, w, hw, hs, hu⟩
    exact ⟨toRecent q, List.mem_map_of_mem _ hq, delta?_eq_some.2 ⟨w, hw, hs, hu⟩⟩


/-- What the statement does to a row of a queue with unique ids: it leaves the
row as it is and no update row has its id, or the row is a candidate, its
winning event has another status, and the row takes the status and
`webhookReceivedAt` of that event. -/
theorem updateRow_cases {store : List QueueRow} (hid : (store.map (fun q => q.id)).Nodup)
    (events : List EmailEvent) (c : Clock) (now : Int) {q : QueueRow} (hq : q ∈ store) :
    (updateRow (computeUpdates store events c) now q = q ∧
      ∀ u ∈ computeUpdates store events c, u.queue_id ≠ q.id) ∨
    (∃ w, q ∈ (eligibleRows store c).take maxCandidates ∧
      winner (relevant_events (recent_queue store c) events) q.resendEmailId = some w ∧
      q.statusId ≠ w.event_status_id ∧
      joinRow (toRecent q) w ∈ computeUpdates store events c ∧
      updateRow (computeUpdates store events c) now q =
        { q with statusId := w.event_status_id,
                 lastEmailSentAt := some w.webhookReceivedAt,
                 updatedAt := now }) := by
  cases hf : (computeUpdates store events c).find? (fun u => decide (u.queue_id = q.id)) with
  | none =>
    left
    rw [List.find?_eq_none] at hf
    have h : ∀ u ∈ computeUpdates store events c, u.queue_id ≠ q.id := by
      intro u hu; simpa using hf u hu
    exact ⟨updateRow_of_not_mem now h, h⟩
  | some u =>
    right
    have hu : u ∈ computeUpdates store events c := List.mem_of_find?_eq_some hf
    have huid : u.queue_id = q.id := by simpa using List.find?_some hf
    have hud : u ∈ computeDeltas store events c := by
      rw [computeUpdates_eq] at hu
      exact List.mem_of_mem_take hu
    obtain ⟨q', hq', w, hw, hs, hjoin⟩ := mem_computeDeltas.1 hud
    have hq'store : q' ∈ store := (candidates_sublist store c).subset hq'
    have hqq : q' = q := by
      apply eq_of_id_eq hid hq'store hq
      rw [← huid, hjoin]; rfl
    subst hqq
    refine ⟨w, hq', hw, hs, hjoin ▸ hu, ?_⟩
    unfold updateRow
    rw [hf, hjoin]
    rfl

/-- C1. Priority dominance: for a candidate item that has an event with a status of
the rank table, the resolver selects a winning event, the winner is one of the
item's events with a status of the rank table, and its rank is at most the rank
of every such event of the item.  When the item has a rank-1 event (bounced 7 or
complained 6), the winner has rank 1 and its status is 7 or 6, whatever the
timestamps of the events. -/
theorem priority_dominance (store : List QueueRow) (events : List EmailEvent) (c : Clock)
    (q : RecentRow) (hq : q ∈ recent_queue store c)
    (e : EmailEvent) (he : e ∈ events) (hrid : q.resendEmailId = some e.resendEmailId)
    (s : Int) (hs : e.statusId = some s) (hranked : s ∈ rankedStatuses) :
    ∃ w, winner (relevant_events (recent_queue store c) events) q.resendEmailId = some w ∧
      (∃ e' ∈ events, e'.resendEmailId = e.resendEmailId ∧
        e'.statusId = some w.event_status_id ∧ w.event_status_id ∈ rankedStatuses ∧
        w = rankRow e' w.event_status_id) ∧
      (∃ n m, priority_order (some w.event_status_id) = some n ∧
        priority_order (some s) = some m ∧ n ≤ m) ∧
      (priority_order (some s) = some 1 →
        priority_order (some w.event_status_id) = some 1 ∧
        (w.event_status_id = 7 ∨ w.event_status_id = 6)) := by
  have hmem : rankRow e s ∈ rankedEvents (recent_queue store c) events :=
    mem_rankedEvents.2 ⟨e, he, s, hs, hranked,
      hrid ▸ List.mem_map_of_mem (fun r => r.resendEmailId) hq, rfl⟩
  obtain ⟨w, hw⟩ := winner_exists hmem
  have hw' : winner (relevant_events (recent_queue store c) events) q.resendEmailId = some w := by
    rw [hrid]; exact hw
  obtain ⟨hwmem, hwrid, hmin⟩ := winner_spec hw
  obtain ⟨e', he', s', hs', hr', _, hwe⟩ := mem_rankedEvents.1 hwmem
  have hws : w.event_status_id = s' := by rw [hwe]; rfl
  have hwr : w.resendEmailId = e.resendEmailId := (Option.some.inj hwrid).symm
  have hle := orderLe_prio (hmin (rankRow e s) hmem hwr.symm) hwr
  obtain ⟨n, hn, hn1⟩ := priority_order_ranked hr'
  obtain ⟨m, hm, _⟩ := priority_order_ranked hranked
  have hwp : w.priority_order = some n := by rw [hwe]; exact hn
  have hnm : n ≤ m := by
    have hep : (rankRow e s).priority_order = some m := hm
    rw [hwp, hep] at hle
    simpa [prioLe] using hle
  refine ⟨w, hw', ⟨e', he', ?_, ?_, ?_, ?_⟩, ⟨n, m, hws ▸ hn, hm, hnm⟩, ?_⟩
  · rw [← hwr, hwe]; rfl
  · rw [hws]; exact hs'
  · rw [hws]; exact hr'
  · rw [hws]; exact hwe
  · intro h1
    have hm1 : m = 1 := Option.some.inj (hm.symm.trans h1)
    have hn1' : n = 1 := by omega
    rw [hws]
    subst hn1'
    refine ⟨hn, ?_⟩
    simp only [rankedStatuses, List.mem_cons, List.mem_singleton, List.not_mem_nil,
      or_false] at hr'
    rcases hr' with h | h | h | h | h | h <;> subst h <;> simp [priority_order] at hn ⊢

/-! ## The winner of an id does not depend on the other candidates -/

theorem orderedInsert_of_all_le {a : RankedEvent} :
    ∀ {l : List RankedEvent}, (∀ x ∈ l, OrderLe a x) →
      List.orderedInsert OrderLe a l = a :: l := by
  intro l h
  cases l with
  | nil => rfl
  | cons b l => exact List.orderedInsert_of_le OrderLe l (h b (List.mem_cons_self _ _))

theorem filter_orderedInsert (p : RankedEvent → Bool) (a : RankedEvent) :
    ∀ l : List RankedEvent, List.Sorted OrderLe l →
      (List.orderedInsert OrderLe a l).filter p =
        if p a = true then List.orderedInsert OrderLe a (l.filter p) else l.filter p := by
  intro l
  induction l with
  | nil => intro _; by_cases hp : p a = true <;> simp [hp]
  | cons b l ih =>
    intro hs
    have hbl : ∀ x ∈ l, OrderLe b x := List.rel_of_sorted_cons hs
    have ih' := ih hs.of_cons
    by_cases hab : OrderLe a b
    · rw [List.orderedInsert_of_le OrderLe l hab]
      by_cases hp : p a = true
      · rw [if_pos hp, List.filter_cons_of_pos hp]
        refine (orderedInsert_of_all_le ?_).symm
        intro x hx
        have hx' : x ∈ b :: l := (List.mem_filter.1 hx).1
        rcases List.mem_cons.1 hx' with h | h
        · rw [h]; exact hab
        · exact orderLe_trans hab (hbl x h)
      · rw [if_neg hp, List.filter_cons_of_neg hp]
    · have hins : List.orderedInsert OrderLe a (b :: l) = b :: List.orderedInsert OrderLe a l := by
        simp [List.orderedInsert, hab]
      rw [hins]
      by_cases hb : p b = true
      · rw [List.filter_cons_of_pos hb, ih', List.filter_cons_of_pos hb]
        by_cases hp : p a = true
        · rw [if_pos hp, if_pos hp]
          simp [List.orderedInsert, hab]
        · rw [if_neg hp, if_neg hp]
      · rw [List.filter_cons_of_neg hb, ih', List.filter_cons_of_neg hb]

theorem filter_orderBy (p : RankedEvent → Bool) :
    ∀ l : List RankedEvent, (orderBy l).filter p = orderBy (l.filter p) := by
  intro l
  induction l with
  | nil => rfl
  | cons b l ih =>
    have h1 : orderBy (b :: l) = List.orderedInsert OrderLe b (orderBy l) := rfl
    rw [h1, filter_orderedInsert p b _ (orderBy_sorted l), ih]
    by_cases hb : p b = true
    · rw [if_pos hb, List.filter_cons_of_pos hb]; rfl
    · rw [if_neg hb, List.filter_cons_of_neg hb]

theorem find?_eq_head?_filter {α : Type} (p : α → Bool) :
    ∀ l : List α, l.find? p = (l.filter p).head? := by
  intro l
  induction l with
  | nil => rfl
  | cons a l ih =>
    by_cases h : p a = true
    · rw [List.find?_cons_of_pos _ h, List.filter_cons_of_pos h]; rfl
    · rw [List.find?_cons_of_neg _ h, List.filter_cons_of_neg h, ih]

theorem filter_rankedEvents_congr {rq1 rq2 : List RecentRow} {k : Nat}
    (h1 : some k ∈ rq1.map (fun q => q.resendEmailId))
    (h2 : some k ∈ rq2.map (fun q => q.resendEmailId)) :
    ∀ events : List EmailEvent,
      (rankedEvents rq1 events).filter (fun e => decide (some k = some e.resendEmailId)) =
      (rankedEvents rq2 events).filter (fun e => decide (some k = some e.resendEmailId)) := by
  intro events
  induction events with
  | nil => rfl
  | cons e es ih =>
    unfold rankedEvents at ih ⊢
    rw [List.filterMap_cons, List.filterMap_cons]
    cases hs : e.statusId with
    | none => exact ih
    | some s =>
      dsimp only
      by_cases hk : e.resendEmailId = k
      · subst hk
        by_cases hr : s ∈ rankedStatuses
        · rw [if_pos ⟨hr, h1⟩, if_pos ⟨hr, h2⟩]
          dsimp only
          rw [List.filter_cons, List.filter_cons, ih]
        · rw [if_neg (fun h => hr h.1), if_neg (fun h => hr h.1)]
          exact ih
      · have hp : ∀ x : RankedEvent, x.resendEmailId = e.resendEmailId →
            decide (some k = some x.resendEmailId) = false := by
          intro x hx
          simp only [decide_eq_false_iff_not, Option.some.injEq]
          omega
        by_cases hc1 : s ∈ rankedStatuses ∧ some e.resendEmailId ∈ rq1.map (fun q => q.resendEmailId) <;>
        by_cases hc2 : s ∈ rankedStatuses ∧ some e.resendEmailId ∈ rq2.map (fun q => q.resendEmailId)
        · rw [if_pos hc1, if_pos hc2]
          dsimp only
          rw [List.filter_cons, List.filter_cons, ih]
        · rw [if_pos hc1, if_neg hc2]
          dsimp only
          rw [List.filter_cons_of_neg (by rw [hp _ rfl]; simp)]
          exact ih
        · rw [if_neg hc1, if_pos hc2]
          dsimp only
          rw [List.filter_cons_of_neg (by rw [hp _ rfl]; simp)]
          exact ih
        · rw [if_neg hc1, if_neg hc2]
          exact ih

/-- The winning event of a `resendEmailId` is the same for any two candidate
sets that both hold the id. -/
theorem winner_congr {rq1 rq2 : List RecentRow} {rid : Option Nat}
    (h1 : rid ∈ rq1.map (fun q => q.resendEmailId))
    (h2 : rid ∈ rq2.map (fun q => q.resendEmailId)) (events : List EmailEvent) :
    winner (relevant_events rq1 events) rid = winner (relevant_events rq2 events) rid := by
  rw [winner_relevant_events, winner_relevant_events]
  cases rid with
  | none =>
    have : ∀ l : List RankedEvent,
        l.find? (fun e => decide ((none : Option Nat) = some e.resendEmailId)) = none := by
      intro l; rw [List.find?_eq_none]; intro x _; simp
    rw [this, this]
  | some k =>
    rw [find?_eq_head?_filter, find?_eq_head?_filter, filter_orderBy, filter_orderBy,
      filter_rankedEvents_congr h1 h2 events]

/-! ## Claims -/


/-- C1, at an item that bounced at time 100 and was delivered at time 200. -/
theorem priority_dominance_witness :
    ∃ w, winner (relevant_events (recent_queue oneItem clock0) bouncedThenDelivered) (some 10)
        = some w ∧ (w.event_status_id = 7 ∨ w.event_status_id = 6) := by
  obtain ⟨w, hw, _, _, h1⟩ := priority_dominance oneItem bouncedThenDelivered clock0
    { id := 1, resendEmailId := some 10, statusId := 2 } (by decide)
    { resendEmailId := 10, statusId := some 7, webhookReceivedAt := 100, createdAt := 110 }
    (by decide) rfl 7 rfl (by decide)
  exact ⟨w, hw, (h1 (by decide)).2⟩

/-- C2, counterexample. Two rank-1 events of one item: the resolver selects the one
inserted later (complained, `createdAt` 300), whose `webhookReceivedAt` 50 is
earlier than that of the other (bounced, 100); the item ends with status 6 and
`lastEmailSentAt` 50. -/
theorem recency_tie_break_counterexample :
    winner (relevant_events (recent_queue oneItem clock0) outOfOrderEvents) (some 10) =
        some (rankRow { resendEmailId := 10, statusId := some 6, webhookReceivedAt := 50,
                        createdAt := 300 } 6) ∧
      ({ resendEmailId := 10, statusId := some 7, webhookReceivedAt := 100, createdAt := 200 }
        : EmailEvent) ∈ outOfOrderEvents ∧
      priority_order (some 7) = priority_order (some 6) ∧
      (50 : Int) < 100 ∧
      (updateQuery oneItem outOfOrderEvents clock0).store =
        [{ id := 1, resendEmailId := some 10, statusId := 6, categoryId := 0, createdAt := 5,
           lastEmailSentAt := some 50, updatedAt := 1000 }] := by
  decide


/-- C2, as amended. Tie-break by insert time: for a candidate item and an event of
the item with a status of the rank table, the resolver selects a winning event,
which is one of the item's events; when the event has the winner's rank, its
`createdAt` (the insert time of the event row) is at most the winner's.  So
among the item's lowest-rank events the winner's `createdAt` is maximal. -/
theorem recency_tie_break_by_createdAt (store : List QueueRow) (events : List EmailEvent)
    (c : Clock) (q : RecentRow) (hq : q ∈ recent_queue store c)
    (e : EmailEvent) (he : e ∈ events) (hrid : q.resendEmailId = some e.resendEmailId)
    (s : Int) (hs : e.statusId = some s) (hranked : s ∈ rankedStatuses) :
    ∃ w, winner (relevant_events (recent_queue store c) events) q.resendEmailId = some w ∧
      (∃ e' ∈ events, e'.resendEmailId = e.resendEmailId ∧ w = rankRow e' w.event_status_id) ∧
      (priority_order (some s) = priority_order (some w.event_status_id) →
        e.createdAt ≤ w.createdAt) := by
  have hmem : rankRow e s ∈ rankedEvents (recent_queue store c) events :=
    mem_rankedEvents.2 ⟨e, he, s, hs, hranked,
      hrid ▸ List.mem_map_of_mem (fun r => r.resendEmailId) hq, rfl⟩
  obtain ⟨w, hw⟩ := winner_exists hmem
  have hw' : winner (relevant_events (recent_queue store c) events) q.resendEmailId = some w := by
    rw [hrid]; exact hw
  obtain ⟨hwmem, hwrid, hmin⟩ := winner_spec hw
  obtain ⟨e', he', s', _, _, _, hwe⟩ := mem_rankedEvents.1 hwmem
  have hws : w.event_status_id = s' := by rw [hwe]; rfl
  have hwr : w.resendEmailId = e.resendEmailId := (Option.some.inj hwrid).symm
  refine ⟨w, hw', ⟨e', he', ?_, ?_⟩, ?_⟩
  · rw [← hwr, hwe]; rfl
  · rw [hws]; exact hwe
  · intro hp
    have hwp : w.priority_order = priority_order (some w.event_status_id) := by
      rw [hws, hwe]; rfl
    exact orderLe_createdAt (hmin (rankRow e s) hmem hwr.symm) hwr (hwp.trans hp.symm)

/-- C2 as amended, at the out-of-order log. -/
theorem recency_tie_break_by_createdAt_witness :
    ∃ w, winner (relevant_events (recent_queue oneItem clock0) outOfOrderEvents) (some 10)
        = some w ∧
      (priority_order (some 7) = priority_order (some w.event_status_id) →
        (200 : Int) ≤ w.createdAt) := by
  obtain ⟨w, hw, _, h⟩ := recency_tie_break_by_createdAt oneItem outOfOrderEvents clock0
    { id := 1, resendEmailId := some 10, statusId := 2 } (by decide)
    { resendEmailId := 10, statusId := some 7, webhookReceivedAt := 100, createdAt := 200 }
    (by decide) rfl 7 rfl (by decide)
  exact ⟨w, hw, h⟩

/-- C4. No-op filter: with ids a key of the queue, a candidate item whose winning
event has the item's current status gets no row in the join, so none in
`updates_needed`; the statement leaves the row as it is, in every column, and
does not count it.  Every row of the join has a new status different from the
current one. -/
theorem noop_filter (store : List QueueRow) (events : List EmailEvent) (c : Clock)
    (hid : (store.map (fun q => q.id)).Nodup)
    (q : QueueRow) (hq : q ∈ (eligibleRows store c).take maxCandidates)
    (w : RankedEvent)
    (hw : winner (relevant_events (recent_queue store c) events) q.resendEmailId = some w)
    (heq : w.event_status_id = q.statusId) :
    (∀ u ∈ computeDeltas store events c, u.queue_id ≠ q.id) ∧
    (computeUpdates store events c).any (fun u => decide (u.queue_id = q.id)) = false ∧
    updateRow (computeUpdates store events c) c.now q = q ∧
    q ∈ (updateQuery store events c).store ∧
    (∀ u ∈ computeDeltas store events c, u.new_status_id ≠ u.current_status_id) := by
  have hqs : q ∈ store := (candidates_sublist store c).subset hq
  have h1 : ∀ u ∈ computeDeltas store events c, u.queue_id ≠ q.id := by
    intro u hu huid
    obtain ⟨q', hq', w', hw', hs', hjoin⟩ := mem_computeDeltas.1 hu
    have hqq : q' = q := by
      apply eq_of_id_eq hid ((candidates_sublist store c).subset hq') hqs
      rw [← huid, hjoin]; rfl
    subst hqq
    rw [hw] at hw'
    rw [← Option.some.inj hw'] at hs'
    exact hs' heq.symm
  have h2 : ∀ u ∈ computeUpdates store events c, u.queue_id ≠ q.id := by
    intro u hu
    rw [computeUpdates_eq] at hu
    exact h1 u (List.mem_of_mem_take hu)
  have h3 : updateRow (computeUpdates store events c) c.now q = q := updateRow_of_not_mem _ h2
  refine ⟨h1, ?_, h3, ?_, ?_⟩
  · rw [List.any_eq_false]
    intro u hu
    simpa using h2 u hu
  · unfold updateQuery applyUpdate
    dsimp only
    rw [List.mem_map]
    exact ⟨q, hqs, h3⟩
  · intro u hu
    obtain ⟨q', _, w', _, hs', hjoin⟩ := mem_computeDeltas.1 hu
    rw [hjoin]
    exact fun h => hs' h.symm

/-- C4, at a delivered item whose only event is a delivered event. -/
theorem noop_filter_witness :
    updateRow (computeUpdates deliveredItem deliveredOnce clock0) clock0.now
      { id := 1, resendEmailId := some 10, statusId := 4, categoryId := 0, createdAt := 5,
        lastEmailSentAt := some 200, updatedAt := 300 } =
      { id := 1, resendEmailId := some 10, statusId := 4, categoryId := 0, createdAt := 5,
        lastEmailSentAt := some 200, updatedAt := 300 } :=
  (noop_filter deliveredItem deliveredOnce clock0 (by decide)
    { id := 1, resendEmailId := some 10, statusId := 4, categoryId := 0, createdAt := 5,
      lastEmailSentAt := some 200, updatedAt := 300 } (by decide)
    (rankRow { resendEmailId := 10, statusId := some 4, webhookReceivedAt := 200,
               createdAt := 210 } 4) (by decide) rfl).2.2.1


theorem handler_healthy (env : Env) (hu : truthy env.DB_USER = true)
    (hp : truthy env.DB_PASSWORD = true) (store : List QueueRow) (events : List EmailEvent)
    (c : Clock) :
    handler env DbFault.healthy store events c =
      (Outcome.returned 200
        { success := true, batchSize := some (updateQuery store events c).rowCount,
          moreToProcess := some (decide ((updateQuery store events c).rowCount > 0)),
          error := none }, (updateQuery store events c).store) := by
  unfold handler
  simp [hu, hp]

theorem length_filter_zip_map {α : Type} [DecidableEq α] (f : α → α) :
    ∀ l : List α,
      ((l.zip (l.map f)).filter (fun p => decide (p.1 ≠ p.2))).length =
        (l.filter (fun a => decide (a ≠ f a))).length := by
  intro l
  induction l with
  | nil => rfl
  | cons a l ih =>
    rw [List.map_cons, List.zip_cons_cons]
    by_cases h : a ≠ f a
    · rw [List.filter_cons_of_pos (by simpa using h), List.filter_cons_of_pos (by simpa using h),
        List.length_cons, List.length_cons, ih]
    · rw [List.filter_cons_of_neg (by simpa using h), List.filter_cons_of_neg (by simpa using h),
        ih]

/-- With ids a key of the queue, the statement changes a row exactly when a row
of `updates_needed` has its id. -/
theorem rewritten_iff_matched {store : List QueueRow}
    (hid : (store.map (fun q => q.id)).Nodup) (events : List EmailEvent) (c : Clock)
    {q : QueueRow} (hq : q ∈ store) :
    decide (q ≠ updateRow (computeUpdates store events c) c.now q) =
      (computeUpdates store events c).any (fun u => decide (u.queue_id = q.id)) := by
  rcases updateRow_cases hid events c c.now hq with ⟨hsame, hno⟩ | ⟨w, _, _, hs, hmem, hupd⟩
  · have h1 : (computeUpdates store events c).any (fun u => decide (u.queue_id = q.id))
        = false := by
      rw [List.any_eq_false]
      intro u hu
      simpa using hno u hu
    rw [h1, hsame]
    simp
  · have h1 : (computeUpdates store events c).any (fun u => decide (u.queue_id = q.id))
        = true := by
      rw [List.any_eq_true]
      exact ⟨_, hmem, by simp [joinRow, toRecent]⟩
    rw [h1, hupd]
    simp only [ne_eq, decide_eq_true_eq]
    intro hcon
    apply hs
    have := congrArg QueueRow.statusId hcon
    exact this

/-- With ids a key of the queue, the number of rows that differ between the
queue before and the queue after the statement is `rowCount`. -/
theorem changed_rows_eq_rowCount {store : List QueueRow}
    (hid : (store.map (fun q => q.id)).Nodup) (events : List EmailEvent) (c : Clock) :
    ((store.zip (updateQuery store events c).store).filter
        (fun p => decide (p.1 ≠ p.2))).length = (updateQuery store events c).rowCount := by
  unfold updateQuery applyUpdate
  dsimp only
  rw [length_filter_zip_map]
  congr 1
  apply List.filter_congr
  intro q hq
  exact rewritten_iff_matched hid events c hq

/-- C5. Bounded batch: with ids a key of the queue, one invocation rewrites at most
3000 rows; when the join has `d` rows, `rowCount` is `min d 3000` and exactly
`min d 3000` rows of the queue differ afterwards from what they were; each of
them is a candidate that now has the status and `webhookReceivedAt` of its
winning event and `updatedAt = now`, and every other row is as it was.  When
`d > 3000` the handler returns `batchSize` 3000 and `moreToProcess = true`. -/
theorem bounded_batch (store : List QueueRow) (events : List EmailEvent) (c : Clock)
    (hid : (store.map (fun q => q.id)).Nodup)
    (env : Env) (hu : truthy env.DB_USER = true) (hp : truthy env.DB_PASSWORD = true) :
    (updateQuery store events c).rowCount ≤ maxApplyBatch ∧
    (updateQuery store events c).rowCount =
      min (computeDeltas store events c).length maxApplyBatch ∧
    (maxApplyBatch < (computeDeltas store events c).length →
      (handler env DbFault.healthy store events c).1 =
        Outcome.returned 200
          { success := true, batchSize := some maxApplyBatch,
            moreToProcess := some true, error := none }) ∧
    (updateQuery store events c).store.length = store.length ∧
    ((store.zip (updateQuery store events c).store).filter
        (fun p => decide (p.1 ≠ p.2))).length =
      min (computeDeltas store events c).length maxApplyBatch ∧
    (∀ p ∈ store.zip (updateQuery store events c).store,
      p.2 = p.1 ∨
      ∃ w, p.1 ∈ (eligibleRows store c).take maxCandidates ∧
        winner (relevant_events (recent_queue store c) events) p.1.resendEmailId = some w ∧
        p.1.statusId ≠ w.event_status_id ∧
        p.2 = { p.1 with statusId := w.event_status_id,
                         lastEmailSentAt := some w.webhookReceivedAt,
                         updatedAt := c.now }) := by
  have h := rowCount_updateQuery hid events c
  refine ⟨?_, ?_, ?_, ?_, ?_, ?_⟩
  · rw [h]; exact Nat.min_le_left _ _
  · rw [h]; exact Nat.min_comm _ _
  · intro hd
    rw [handler_healthy env hu hp, h, Nat.min_eq_left (Nat.le_of_lt hd)]
    simp [maxApplyBatch]
  · unfold updateQuery applyUpdate
    dsimp only
    exact List.length_map _ _
  · rw [changed_rows_eq_rowCount hid, h]; exact Nat.min_comm _ _
  · intro p hp'
    have hp2 : p ∈ store.zip (store.map (updateRow (computeUpdates store events c) c.now)) := hp'
    rw [List.zip_map_right] at hp2
    obtain ⟨⟨a, b⟩, hab, rfl⟩ := List.mem_map.1 hp2
    have hab' : a = b ∧ a ∈ store := by
      have := List.of_mem_zip hab
      have hself : ∀ (l : List QueueRow) (x y : QueueRow), (x, y) ∈ l.zip l → x = y := by
        intro l
        induction l with
        | nil => intro x y h; cases h
        | cons z l ih =>
          intro x y h
          rw [List.zip_cons_cons] at h
          rcases List.mem_cons.1 h with h | h
          · cases h; rfl
          · exact ih x y h
      exact ⟨hself store a b hab, this.1⟩
    obtain ⟨rfl, ha⟩ := hab'
    dsimp only [Prod.map, id]
    rcases updateRow_cases hid events c c.now ha with ⟨hsame, _⟩ | ⟨w, hc, hw, hs, _, hupd⟩
    · left; exact hsame
    · right; exact ⟨w, hc, hw, hs, hupd⟩

/-- C6, as amended. Result reporting: the `moreToProcess` flag of a successful
invocation is `rowCount > 0`, whatever the number of eligible items; with ids a
key of the queue that is: the join has at least one row. -/
theorem moreToProcess_iff_applied (store : List QueueRow) (events : List EmailEvent)
    (c : Clock) (hid : (store.map (fun q => q.id)).Nodup)
    (env : Env) (hu : truthy env.DB_USER = true) (hp : truthy env.DB_PASSWORD = true) :
    ∃ b, (handler env DbFault.healthy store events c).1 =
        Outcome.returned 200
          { success := true, batchSize := some (updateQuery store events c).rowCount,
            moreToProcess := some b, error := none } ∧
      (b = true ↔ 0 < (updateQuery store events c).rowCount) ∧
      (b = true ↔ computeDeltas store events c ≠ []) := by
  refine ⟨decide ((updateQuery store events c).rowCount > 0), ?_, ?_, ?_⟩
  · rw [handler_healthy env hu hp]
  · simp
  · rw [rowCount_updateQuery hid events c]
    simp only [gt_iff_lt, decide_eq_true_eq]
    rw [← List.length_pos, maxApplyBatch]
    omega


/-- A candidate row whose id has a ranked event, and no event with the row's
own status, gives a row of the join. -/
theorem delta_of_events {rq : List RecentRow} {events : List EmailEvent} {q : RecentRow}
    (hq : q ∈ rq) {e : EmailEvent} (he : e ∈ events)
    (hrid : q.resendEmailId = some e.resendEmailId) {s : Int} (hs : e.statusId = some s)
    (hr : s ∈ rankedStatuses)
    (hne : ∀ e' ∈ events, q.resendEmailId = some e'.resendEmailId →
      e'.statusId ≠ some q.statusId) :
    ∃ u, delta? (relevant_events rq events) q = some u := by
  have hmem : rankRow e s ∈ rankedEvents rq events :=
    mem_rankedEvents.2 ⟨e, he, s, hs, hr,
      hrid ▸ List.mem_map_of_mem (fun r => r.resendEmailId) hq, rfl⟩
  obtain ⟨w, hw⟩ := winner_exists hmem
  have hw' : winner (relevant_events rq events) q.resendEmailId = some w := by
    rw [hrid]; exact hw
  obtain ⟨hwmem, hwrid, _⟩ := winner_spec hw'
  obtain ⟨e', he', s', hs', _, _, hwe⟩ := mem_rankedEvents.1 hwmem
  have hws : w.event_status_id = s' := by rw [hwe]; rfl
  have hwr : w.resendEmailId = e'.resendEmailId := by rw [hwe]; rfl
  refine ⟨joinRow q w, delta?_eq_some.2 ⟨w, hw', ?_, rfl⟩⟩
  intro hcon
  apply hne e' he' (by rw [hwrid, hwr])
  rw [hs', hcon, hws]

theorem length_filterMap_of_forall_some {α β : Type} (f : α → Option β) :
    ∀ l : List α, (∀ x ∈ l, ∃ y, f x = some y) → (l.filterMap f).length = l.length := by
  intro l
  induction l with
  | nil => intro _; rfl
  | cons a l ih =>
    intro h
    obtain ⟨y, hy⟩ := h a (List.mem_cons_self _ _)
    rw [List.filterMap_cons, hy]
    dsimp only
    rw [List.length_cons, List.length_cons, ih (fun x hx => h x (List.mem_cons_of_mem _ hx))]

theorem sentItems_ids (n : Nat) : (sentItems n).map (fun q => q.id) = List.range n := by
  unfold sentItems
  rw [List.map_map]
  exact List.map_id _

theorem sentItems_nodup (n : Nat) : ((sentItems n).map (fun q => q.id)).Nodup := by
  rw [sentItems_ids]; exact List.nodup_range n

theorem length_sentItems (n : Nat) : (sentItems n).length = n := by
  simp [sentItems]

theorem mem_sentItems {n : Nat} {q : QueueRow} (hq : q ∈ sentItems n) :
    q.id < n ∧ q.resendEmailId = some q.id ∧ q.statusId = 2 ∧ q.createdAt = 5 := by
  unfold sentItems at hq
  obtain ⟨i, hi, rfl⟩ := List.mem_map.1 hq
  exact ⟨List.mem_range.1 hi, rfl, rfl, rfl⟩

theorem eligible_of_sent {q : QueueRow} (hs : q.statusId = 2) (hc : q.createdAt = 5) :
    eligible clock0 q = true := by
  simp [eligible, hs, hc, openStatuses, clock0]

theorem eligibleRows_sentItems (n : Nat) : eligibleRows (sentItems n) clock0 = sentItems n := by
  unfold eligibleRows
  rw [List.filter_eq_self]
  intro q hq
  obtain ⟨_, _, hs, hc⟩ := mem_sentItems hq
  exact eligible_of_sent hs hc

theorem mem_deliveredEvents {n : Nat} {e : EmailEvent} :
    e ∈ deliveredEvents n ↔ e.resendEmailId < n ∧ e.statusId = some 4 ∧
      e.webhookReceivedAt = 200 ∧ e.createdAt = 210 := by
  unfold deliveredEvents
  rw [List.mem_map]
  constructor
  · rintro ⟨i, hi, rfl⟩
    exact ⟨List.mem_range.1 hi, rfl, rfl, rfl⟩
  · rintro ⟨h1, h2, h3, h4⟩
    refine ⟨e.resendEmailId, List.mem_range.2 h1, ?_⟩
    cases e
    simp only at h2 h3 h4
    subst h2 h3 h4
    rfl

/-- A sent item with an id below `n` that is a candidate has a row in the join
against the log of delivered events. -/
theorem sent_has_delta {n : Nat} {store : List QueueRow} {c : Clock} {q : QueueRow}
    (hq : q ∈ (eligibleRows store c).take maxCandidates) (hid : q.id < n)
    (hrid : q.resendEmailId = some q.id) (hs : q.statusId = 2) :
    ∃ u, u ∈ computeDeltas store (deliveredEvents n) c ∧ u.queue_id = q.id := by
  have hrq : toRecent q ∈ recent_queue store c := by
    rw [recent_queue_eq]; exact List.mem_map_of_mem _ hq
  have he : deliveredEvent q.id ∈ deliveredEvents n :=
    mem_deliveredEvents.2 ⟨hid, rfl, rfl, rfl⟩
  obtain ⟨u, hu⟩ := delta_of_events hrq he hrid rfl (by decide) (by
    intro e' he' _
    rw [(mem_deliveredEvents.1 he').2.1]
    show some (4 : Int) ≠ some q.statusId
    rw [hs]; decide)
  refine ⟨u, ?_, delta?_queue_id hu⟩
  rw [computeDeltas_eq, List.mem_filterMap]
  exact ⟨toRecent q, hrq, hu⟩

theorem length_computeDeltas_sentItems {n : Nat} (hn : n ≤ maxCandidates) :
    (computeDeltas (sentItems n) (deliveredEvents n) clock0).length = n := by
  have htake : (eligibleRows (sentItems n) clock0).take maxCandidates = sentItems n := by
    rw [eligibleRows_sentItems, List.take_of_length_le]
    rw [length_sentItems]; exact hn
  rw [computeDeltas_eq, length_filterMap_of_forall_some, recent_queue_eq, htake,
    List.length_map, length_sentItems]
  intro r hr
  rw [recent_queue_eq, htake] at hr
  obtain ⟨q, hq, rfl⟩ := List.mem_map.1 hr
  obtain ⟨hid, hrid, hs, _⟩ := mem_sentItems hq
  have he : deliveredEvent q.id ∈ deliveredEvents n :=
    mem_deliveredEvents.2 ⟨hid, rfl, rfl, rfl⟩
  have hrq : toRecent q ∈ recent_queue (sentItems n) clock0 := by
    rw [recent_queue_eq, htake]; exact List.mem_map_of_mem _ hq
  exact delta_of_events hrq he hrid rfl (by decide) (by
    intro e' he' _
    rw [(mem_deliveredEvents.1 he').2.1]
    show some (4 : Int) ≠ some q.statusId
    rw [hs]; decide)


/-- C5, at a queue of 5000 sent items that were all delivered: 5000 rows in the
join, `rowCount` 3000, 3000 rows of the queue changed, `moreToProcess = true`. -/
theorem bounded_batch_witness :
    (computeDeltas (sentItems 5000) (deliveredEvents 5000) clock0).length = 5000 ∧
    (updateQuery (sentItems 5000) (deliveredEvents 5000) clock0).rowCount = 3000 ∧
    (((sentItems 5000).zip
        (updateQuery (sentItems 5000) (deliveredEvents 5000) clock0).store).filter
        (fun p => decide (p.1 ≠ p.2))).length = 3000 ∧
    (handler { DB_USER := some "user", DB_PASSWORD := some "secret" } DbFault.healthy
        (sentItems 5000) (deliveredEvents 5000) clock0).1 =
      Outcome.returned 200
        { success := true, batchSize := some 3000, moreToProcess := some true,
          error := none } := by
  have hlen : (computeDeltas (sentItems 5000) (deliveredEvents 5000) clock0).length = 5000 :=
    length_computeDeltas_sentItems (by decide)
  obtain ⟨_, h2, h3, _, h5, _⟩ := bounded_batch (sentItems 5000) (deliveredEvents 5000) clock0
    (sentItems_nodup 5000) { DB_USER := some "user", DB_PASSWORD := some "secret" }
    (by decide) (by decide)
  rw [hlen] at h2 h3 h5
  exact ⟨hlen, h2, h5, h3 (by decide)⟩

theorem computeUpdates_no_events (store : List QueueRow) (c : Clock) :
    computeUpdates store [] c = [] := by
  have h : computeDeltas store [] c = [] := by
    rw [computeDeltas_eq]
    rw [List.filterMap_eq_nil_iff]
    intro q _
    rfl
  rw [computeUpdates_eq, h]
  rfl

/-- C6, counterexample. The queue holds 10000 eligible items and the log is empty:
the number of eligible items is at the bound of 10000, no row is rewritten and
the handler returns `moreToProcess = false`. -/
theorem moreToProcess_counterexample :
    maxCandidates ≤ (eligibleRows (sentItems 10000) clock0).length ∧
    (handler { DB_USER := some "user", DB_PASSWORD := some "secret" } DbFault.healthy
        (sentItems 10000) [] clock0).1 =
      Outcome.returned 200
        { success := true, batchSize := some 0, moreToProcess := some false,
          error := none } := by
  constructor
  · rw [eligibleRows_sentItems, length_sentItems]
    decide
  · rw [handler_healthy _ (by decide) (by decide)]
    have h : (updateQuery (sentItems 10000) [] clock0).rowCount = 0 := by
      unfold updateQuery
      rw [computeUpdates_no_events]
      simp [applyUpdate]
    rw [h]
    rfl

/-- C6 as amended, at the queue of one item that bounced and was delivered. -/
theorem moreToProcess_iff_applied_witness :
    ∃ b, (handler { DB_USER := some "user", DB_PASSWORD := some "secret" } DbFault.healthy
          oneItem bouncedThenDelivered clock0).1 =
        Outcome.returned 200
          { success := true,
            batchSize := some (updateQuery oneItem bouncedThenDelivered clock0).rowCount,
            moreToProcess := some b, error := none } ∧
      (b = true ↔ 0 < (updateQuery oneItem bouncedThenDelivered clock0).rowCount) ∧
      (b = true ↔ computeDeltas oneItem bouncedThenDelivered clock0 ≠ []) :=
  moreToProcess_iff_applied oneItem bouncedThenDelivered clock0 (by decide)
    { DB_USER := some "user", DB_PASSWORD := some "secret" } (by decide) (by decide)


theorem applyUpdate_nil (now : Int) (store : List QueueRow) :
    applyUpdate [] now store = { store := store, rowCount := 0 } := by
  unfold applyUpdate
  have h1 : store.map (updateRow [] now) = store := by
    rw [List.map_congr_left (fun q _ => (rfl : updateRow [] now q = q))]
    exact List.map_id' store
  rw [h1]
  simp

theorem mem_candidates_of_eligible {store : List QueueRow} {c : Clock}
    (hlen : (eligibleRows store c).length ≤ maxCandidates) {q : QueueRow} (hq : q ∈ store)
    (he : eligible c q = true) : q ∈ (eligibleRows store c).take maxCandidates := by
  rw [List.take_of_length_le hlen]
  exact List.mem_filter.2 ⟨hq, he⟩

theorem eligible_of_mem_candidates {store : List QueueRow} {c : Clock} {q : QueueRow}
    (hq : q ∈ (eligibleRows store c).take maxCandidates) : eligible c q = true :=
  (List.mem_filter.1 (List.mem_of_mem_take hq)).2

theorem rid_mem_recent_queue {store : List QueueRow} {c : Clock} {q : QueueRow}
    (hq : q ∈ (eligibleRows store c).take maxCandidates) :
    q.resendEmailId ∈ (recent_queue store c).map (fun r => r.resendEmailId) := by
  rw [recent_queue_eq, List.map_map]
  exact List.mem_map_of_mem (fun q => q.resendEmailId) hq

/-- C3, as amended. Idempotence of a run that was not cut: with ids a key of the
queue, when at most 10000 items are eligible and the join has at most 3000
rows, a second run over the resulting queue and the same event log, at a clock
whose six-month cutoff is not earlier, has an empty join, rewrites no row
(`rowCount = 0`) and leaves the queue as the first run left it. -/
theorem idempotent_when_not_cut (store : List QueueRow) (events : List EmailEvent)
    (c1 c2 : Clock) (hid : (store.map (fun q => q.id)).Nodup)
    (hclock : c1.sixMonthsAgo ≤ c2.sixMonthsAgo)
    (hcand : (eligibleRows store c1).length ≤ maxCandidates)
    (hbatch : (computeDeltas store events c1).length ≤ maxApplyBatch) :
    computeDeltas (updateQuery store events c1).store events c2 = [] ∧
    (updateQuery (updateQuery store events c1).store events c2).rowCount = 0 ∧
    (updateQuery (updateQuery store events c1).store events c2).store =
      (updateQuery store events c1).store := by
  have hun : computeUpdates store events c1 = computeDeltas store events c1 := by
    rw [computeUpdates_eq, List.take_of_length_le hbatch]
  have hnil : computeDeltas (updateQuery store events c1).store events c2 = [] := by
    rw [List.eq_nil_iff_forall_not_mem]
    intro u hu
    obtain ⟨q1, hq1, w2, hw2, hs2, _⟩ := mem_computeDeltas.1 hu
    have hq1s : q1 ∈ (updateQuery store events c1).store :=
      (candidates_sublist _ c2).subset hq1
    have hel2 := eligible_of_mem_candidates hq1
    have hrid2 := rid_mem_recent_queue hq1
    unfold updateQuery applyUpdate at hq1s
    dsimp only at hq1s
    obtain ⟨q, hq, hqq1⟩ := List.mem_map.1 hq1s
    rcases updateRow_cases hid events c1 c1.now hq with ⟨hsame, hno⟩ | ⟨w, hqc, hw, _, _, hupd⟩
    · rw [hsame] at hqq1
      subst hqq1
      have hel1 : eligible c1 q = true := by
        unfold eligible at hel2 ⊢
        simp only [Bool.and_eq_true, decide_eq_true_eq] at hel2 ⊢
        exact ⟨hel2.1, Int.le_trans hclock hel2.2⟩
      have hqc := mem_candidates_of_eligible hcand hq hel1
      have hw1 : winner (relevant_events (recent_queue store c1) events) q.resendEmailId =
          some w2 := by
        rw [winner_congr (rid_mem_recent_queue hqc) hrid2 events]; exact hw2
      have hmem : joinRow (toRecent q) w2 ∈ computeDeltas store events c1 :=
        mem_computeDeltas.2 ⟨q, hqc, w2, hw1, hs2, rfl⟩
      rw [← hun] at hmem
      exact hno _ hmem rfl
    · rw [hupd] at hqq1
      subst hqq1
      dsimp only at hw2 hs2 hrid2
      rw [← winner_congr (rid_mem_recent_queue hqc) hrid2 events, hw] at hw2
      exact hs2 (by rw [Option.some.inj hw2])
  have hun2 : computeUpdates (updateQuery store events c1).store events c2 = [] := by
    rw [computeUpdates_eq, hnil]; rfl
  refine ⟨hnil, ?_, ?_⟩
  · show (applyUpdate _ _ _).rowCount = 0
    rw [hun2, applyUpdate_nil]
  · show (applyUpdate _ _ _).store = _
    rw [hun2, applyUpdate_nil]

/-- C3 as amended, at the queue of one item that bounced and was delivered. -/
theorem idempotent_when_not_cut_witness :
    computeDeltas (updateQuery oneItem bouncedThenDelivered clock0).store
        bouncedThenDelivered clock0 = [] ∧
    (updateQuery (updateQuery oneItem bouncedThenDelivered clock0).store
        bouncedThenDelivered clock0).rowCount = 0 ∧
    (updateQuery (updateQuery oneItem bouncedThenDelivered clock0).store
        bouncedThenDelivered clock0).store =
      (updateQuery oneItem bouncedThenDelivered clock0).store :=
  idempotent_when_not_cut oneItem bouncedThenDelivered clock0 clock0 (by decide) (by decide)
    (by decide) (by decide)


theorem exists_not_of_filter_length_lt {α : Type} (p : α → Bool) (l : List α)
    (h : (l.filter p).length < l.length) : ∃ x ∈ l, p x = false := by
  by_contra hcon
  have hall : ∀ x ∈ l, p x = true := by
    intro x hx
    by_contra hx'
    exact hcon ⟨x, hx, by simpa using hx'⟩
  rw [List.filter_eq_self.2 hall] at h
  exact Nat.lt_irrefl _ h

theorem updateRow_id (un : List UpdateRow) (now : Int) (q : QueueRow) :
    (updateRow un now q).id = q.id := by
  unfold updateRow
  cases un.find? (fun u => decide (u.queue_id = q.id)) <;> rfl

/-- A queue of more than 3000 sent items that were all delivered: the first run
rewrites 3000 rows and a second run rewrites a row again. -/
theorem second_run_of_cut_run (n : Nat) (hn1 : maxApplyBatch < n) (hn2 : n ≤ maxCandidates) :
    (updateQuery (sentItems n) (deliveredEvents n) clock0).rowCount = maxApplyBatch ∧
    0 < (updateQuery (updateQuery (sentItems n) (deliveredEvents n) clock0).store
          (deliveredEvents n) clock0).rowCount := by
  have hid := sentItems_nodup n
  have hlen : (computeDeltas (sentItems n) (deliveredEvents n) clock0).length = n :=
    length_computeDeltas_sentItems hn2
  have hrc : (updateQuery (sentItems n) (deliveredEvents n) clock0).rowCount = maxApplyBatch := by
    rw [rowCount_updateQuery hid, hlen]; exact Nat.min_eq_left (Nat.le_of_lt hn1)
  refine ⟨hrc, ?_⟩
  -- a row of the queue that the first run did not rewrite
  have hlt : ((sentItems n).filter (fun q =>
      (computeUpdates (sentItems n) (deliveredEvents n) clock0).any
        (fun u => decide (u.queue_id = q.id)))).length < (sentItems n).length := by
    have h : ((sentItems n).filter (fun q =>
        (computeUpdates (sentItems n) (deliveredEvents n) clock0).any
          (fun u => decide (u.queue_id = q.id)))).length = maxApplyBatch := hrc
    rw [h, length_sentItems]; exact hn1
  obtain ⟨q, hq, hqno⟩ := exists_not_of_filter_length_lt _ _ hlt
  have hno : ∀ u ∈ computeUpdates (sentItems n) (deliveredEvents n) clock0,
      u.queue_id ≠ q.id := by
    intro u hu
    have := List.any_eq_false.1 hqno u hu
    simpa using this
  have hsame := updateRow_of_not_mem clock0.now hno
  obtain ⟨hqid, hqrid, hqs, hqc⟩ := mem_sentItems hq
  -- the row is a candidate of the second run
  have hq1 : q ∈ (updateQuery (sentItems n) (deliveredEvents n) clock0).store := by
    unfold updateQuery applyUpdate
    dsimp only
    exact List.mem_map.2 ⟨q, hq, hsame⟩
  have hlen1 : (updateQuery (sentItems n) (deliveredEvents n) clock0).store.length
      = n := by
    unfold updateQuery applyUpdate
    dsimp only
    rw [List.length_map, length_sentItems]
  have hcand : (eligibleRows (updateQuery (sentItems n) (deliveredEvents n) clock0).store
      clock0).length ≤ maxCandidates := by
    refine Nat.le_trans (List.length_filter_le _ _) ?_
    rw [hlen1]; exact hn2
  have hqc1 := mem_candidates_of_eligible hcand hq1 (eligible_of_sent hqs hqc)
  obtain ⟨u, hu, _⟩ := sent_has_delta (n := n) hqc1 hqid hqrid hqs
  have hid1 : ((updateQuery (sentItems n) (deliveredEvents n) clock0).store.map
      (fun q => q.id)).Nodup := by
    unfold updateQuery applyUpdate
    dsimp only
    rw [List.map_map]
    have : ((fun q : QueueRow => q.id) ∘ updateRow
        (computeUpdates (sentItems n) (deliveredEvents n) clock0) clock0.now) =
        (fun q : QueueRow => q.id) := by
      funext x; exact updateRow_id _ _ x
    rw [this]; exact hid
  rw [rowCount_updateQuery hid1]
  have hpos : 0 < (computeDeltas (updateQuery (sentItems n) (deliveredEvents n)
      clock0).store (deliveredEvents n) clock0).length := List.length_pos_of_mem hu
  rw [maxApplyBatch]
  omega


/-- C3, counterexample. A queue of 3001 sent items that were all delivered: the
first run rewrites 3000 rows, and a second run over the resulting queue and the
same log, at the same clock, rewrites a row again. -/
theorem idempotence_counterexample :
    (updateQuery (sentItems 3001) (deliveredEvents 3001) clock0).rowCount = 3000 ∧
    0 < (updateQuery (updateQuery (sentItems 3001) (deliveredEvents 3001) clock0).store
          (deliveredEvents 3001) clock0).rowCount :=
  second_run_of_cut_run 3001 (by decide) (by decide)


/-- C7, counterexample. Invocations A and B compute the same delta (2 to 4) for the item from the
same pre-state; A applies at time 1000; B applies at time 2000 to the queue A
left, where the item has status 4, not the delta's `current_status_id` 2: B
rewrites the row (`updatedAt` 2000) and counts it.  Applied to a queue where
the item has meanwhile bounced (status 7), the same delta sets status 4. -/
theorem stale_write_counterexample :
    computeUpdates oneItem deliveredOnce clock0 =
      [{ queue_id := 1, new_status_id := 4, last_email_sent_at := 200,
         current_status_id := 2 }] ∧
    (applyUpdate (computeUpdates oneItem deliveredOnce clock0) 1000 oneItem).store =
      [{ id := 1, resendEmailId := some 10, statusId := 4, categoryId := 0, createdAt := 5,
         lastEmailSentAt := some 200, updatedAt := 1000 }] ∧
    applyUpdate (computeUpdates oneItem deliveredOnce clock0) 2000
        (applyUpdate (computeUpdates oneItem deliveredOnce clock0) 1000 oneItem).store =
      { store := [{ id := 1, resendEmailId := some 10, statusId := 4, categoryId := 0,
                    createdAt := 5, lastEmailSentAt := some 200, updatedAt := 2000 }],
        rowCount := 1 } ∧
    applyUpdate (computeUpdates oneItem deliveredOnce clock0) 2000 bouncedItem =
      { store := [{ id := 1, resendEmailId := some 10, statusId := 4, categoryId := 0,
                    createdAt := 5, lastEmailSentAt := some 200, updatedAt := 2000 }],
        rowCount := 1 } := by
  decide

theorem updateRow_withStatus (un : List UpdateRow) (now : Int) (g : QueueRow → Int)
    (q : QueueRow) :
    updateRow un now (withStatus g q) =
      match un.find? (fun u => decide (u.queue_id = q.id)) with
      | some _ => updateRow un now q
      | none => withStatus g q := by
  unfold updateRow withStatus
  dsimp only
  cases un.find? (fun u => decide (u.queue_id = q.id)) <;> rfl

/-- C7, as amended. The apply step writes a delta to every row of the queue whose
id is the delta's `queue_id`, whatever the row's `statusId` at apply time, and
counts it: the number of rows rewritten does not depend on the statuses in the
queue, a row with a delta ends the same whichever status it had, with the
delta's status and timestamp, and a row without a delta is left as it is. -/
theorem apply_ignores_current_status (un : List UpdateRow) (now : Int)
    (store : List QueueRow) (g : QueueRow → Int) :
    (applyUpdate un now (store.map (withStatus g))).rowCount =
      (applyUpdate un now store).rowCount ∧
    (∀ q ∈ store, ∀ u, un.find? (fun u => decide (u.queue_id = q.id)) = some u →
      updateRow un now (withStatus g q) = updateRow un now q ∧
      updateRow un now q =
        { q with statusId := u.new_status_id,
                 lastEmailSentAt := some u.last_email_sent_at,
                 updatedAt := now }) ∧
    (∀ q ∈ store, (∀ u ∈ un, u.queue_id ≠ q.id) → updateRow un now q = q) := by
  refine ⟨?_, ?_, ?_⟩
  · unfold applyUpdate
    dsimp only
    rw [List.filter_map, List.length_map]
    rfl
  · intro q _ u hu
    constructor
    · rw [updateRow_withStatus, hu]
    · unfold updateRow
      rw [hu]
  · intro q _ h
    exact updateRow_of_not_mem now h


/-- C7 as amended, at the delta 2 to 4 of the sent item applied to the queue where
the item has meanwhile bounced. -/
theorem apply_ignores_current_status_witness :
    (applyUpdate (computeUpdates oneItem deliveredOnce clock0) 2000
        (oneItem.map (withStatus (fun _ => 7)))).rowCount =
      (applyUpdate (computeUpdates oneItem deliveredOnce clock0) 2000 oneItem).rowCount :=
  (apply_ignores_current_status (computeUpdates oneItem deliveredOnce clock0) 2000 oneItem
    (fun _ => 7)).1

/-- The rank of a winning event is at most the rank of every ranked event of
its id. -/
theorem winner_rank_le {rq : List RecentRow} {events : List EmailEvent} {rid : Option Nat}
    {w : RankedEvent} (hw : winner (relevant_events rq events) rid = some w)
    (hrq : rid ∈ rq.map (fun q => q.resendEmailId))
    {e : EmailEvent} (he : e ∈ events) (hrid : rid = some e.resendEmailId)
    {s : Int} (hs : e.statusId = some s) (hr : s ∈ rankedStatuses) :
    ∃ n m, priority_order (some w.event_status_id) = some n ∧
      priority_order (some s) = some m ∧ n ≤ m := by
  have hmem : rankRow e s ∈ rankedEvents rq events :=
    mem_rankedEvents.2 ⟨e, he, s, hs, hr, hrid ▸ hrq, rfl⟩
  obtain ⟨hwmem, hwrid, hmin⟩ := winner_spec hw
  obtain ⟨e', _, s', _, hr', _, hwe⟩ := mem_rankedEvents.1 hwmem
  have hws : w.event_status_id = s' := by rw [hwe]; rfl
  have hwr : w.resendEmailId = e.resendEmailId := Option.some.inj (hwrid.symm.trans hrid)
  have hle := orderLe_prio (hmin (rankRow e s) hmem hwr.symm) hwr
  obtain ⟨n, hn, _⟩ := priority_order_ranked hr'
  obtain ⟨m, hm, _⟩ := priority_order_ranked hr
  have hwp : w.priority_order = some n := by rw [hwe]; exact hn
  have hep : (rankRow e s).priority_order = some m := hm
  rw [hwp, hep] at hle
  exact ⟨n, m, hws ▸ hn, hm, by simpa [prioLe] using hle⟩

/-- C8, counterexample. An item with status delivered (4, rank 4) whose only event is a
delivery-delayed event (5, rank 5): the invocation sets its status to 5. -/
theorem backward_move_counterexample :
    priority_order (some 4) = some 4 ∧ priority_order (some 5) = some 5 ∧
    updateQuery deliveredItem delayedOnce clock0 =
      { store := [{ id := 1, resendEmailId := some 10, statusId := 5, categoryId := 0,
                    createdAt := 5, lastEmailSentAt := some 400, updatedAt := 1000 }],
        rowCount := 1 } := by
  decide

/-- C8, as amended. With ids a key of the queue, an item whose current status is in the rank
table and is the status of one of the item's events in the log does not move
backward: the rank of its status after the invocation is at most the rank of
its status before. -/
theorem no_backward_move_when_backed (store : List QueueRow) (events : List EmailEvent)
    (c : Clock) (hid : (store.map (fun q => q.id)).Nodup) (q : QueueRow) (hq : q ∈ store)
    (e : EmailEvent) (he : e ∈ events) (hrid : q.resendEmailId = some e.resendEmailId)
    (hs : e.statusId = some q.statusId) (hr : q.statusId ∈ rankedStatuses) :
    ∃ n m, priority_order (some q.statusId) = some n ∧
      priority_order (some (updateRow (computeUpdates store events c) c.now q).statusId)
        = some m ∧ m ≤ n := by
  rcases updateRow_cases hid events c c.now hq with ⟨hsame, _⟩ | ⟨w, hqc, hw, _, _, hupd⟩
  · obtain ⟨n, hn, _⟩ := priority_order_ranked hr
    exact ⟨n, n, hn, by rw [hsame]; exact hn, Nat.le_refl n⟩
  · obtain ⟨m, n, hm, hn, hle⟩ := winner_rank_le hw (rid_mem_recent_queue hqc) he hrid hs hr
    refine ⟨n, m, hn, ?_, hle⟩
    rw [hupd]
    exact hm

/-- C8 as amended, at a delivered item with a delivered and a delivery-delayed
event. -/
theorem no_backward_move_when_backed_witness :
    ∃ n m, priority_order (some 4) = some n ∧
      priority_order (some (updateRow
        (computeUpdates deliveredItem (deliveredOnce ++ delayedOnce) clock0) clock0.now
        { id := 1, resendEmailId := some 10, statusId := 4, categoryId := 0, createdAt := 5,
          lastEmailSentAt := some 200, updatedAt := 300 }).statusId) = some m ∧ m ≤ n :=
  no_backward_move_when_backed deliveredItem (deliveredOnce ++ delayedOnce) clock0 (by decide)
    { id := 1, resendEmailId := some 10, statusId := 4, categoryId := 0, createdAt := 5,
      lastEmailSentAt := some 200, updatedAt := 300 } (by decide)
    { resendEmailId := 10, statusId := some 4, webhookReceivedAt := 200, createdAt := 210 }
    (by decide) rfl rfl (by decide)

/-- C9. Eligibility exclusion by recency: an item created before the six-month
cutoff does not pass the `WHERE` clause of `recent_queue`; with ids a key of the
queue, no candidate has its id and the invocation leaves the row as it is,
whatever its events. -/
theorem recency_exclusion (store : List QueueRow) (events : List EmailEvent) (c : Clock)
    (hid : (store.map (fun q => q.id)).Nodup) (q : QueueRow) (hq : q ∈ store)
    (hold : q.createdAt < c.sixMonthsAgo) :
    q ∉ eligibleRows store c ∧
    (∀ r ∈ recent_queue store c, r.id ≠ q.id) ∧
    (∀ u ∈ computeUpdates store events c, u.queue_id ≠ q.id) ∧
    updateRow (computeUpdates store events c) c.now q = q ∧
    q ∈ (updateQuery store events c).store := by
  have hnot : eligible c q = false := by
    unfold eligible
    have : ¬ c.sixMonthsAgo ≤ q.createdAt := by omega
    simp [this]
  have h1 : q ∉ eligibleRows store c := by
    intro h
    rw [(List.mem_filter.1 h).2] at hnot
    cases hnot
  have h2 : ∀ r ∈ recent_queue store c, r.id ≠ q.id := by
    intro r hr hrid
    rw [recent_queue_eq] at hr
    obtain ⟨q', hq', rfl⟩ := List.mem_map.1 hr
    have : q' = q := eq_of_id_eq hid ((candidates_sublist store c).subset hq') hq hrid
    subst this
    exact h1 (List.mem_of_mem_take hq')
  have h3 : ∀ u ∈ computeUpdates store events c, u.queue_id ≠ q.id := by
    intro u hu huid
    have hsub := (computeUpdates_eq store events c) ▸ hu
    obtain ⟨q', hq', w, _, _, hjoin⟩ := mem_computeDeltas.1 (List.mem_of_mem_take hsub)
    apply h2 (toRecent q') (by rw [recent_queue_eq]; exact List.mem_map_of_mem _ hq')
    rw [← huid, hjoin]; rfl
  have h4 := updateRow_of_not_mem c.now h3
  refine ⟨h1, h2, h3, h4, ?_⟩
  unfold updateQuery applyUpdate
  dsimp only
  exact List.mem_map.2 ⟨q, hq, h4⟩

/-- C9, at the sent item created at time 5, with a delivered event, under a clock
whose cutoff is time 50. -/
theorem recency_exclusion_witness :
    recent_queue oneItem lateClock = [] ∧
    (updateQuery oneItem deliveredOnce lateClock).store = oneItem ∧
    updateRow (computeUpdates oneItem deliveredOnce lateClock) lateClock.now
      { id := 1, resendEmailId := some 10, statusId := 2, categoryId := 0, createdAt := 5,
        lastEmailSentAt := none, updatedAt := 5 } =
      { id := 1, resendEmailId := some 10, statusId := 2, categoryId := 0, createdAt := 5,
        lastEmailSentAt := none, updatedAt := 5 } :=
  ⟨by decide, by decide,
    (recency_exclusion oneItem deliveredOnce lateClock (by decide)
      { id := 1, resendEmailId := some 10, statusId := 2, categoryId := 0, createdAt := 5,
        lastEmailSentAt := none, updatedAt := 5 } (by decide) (by decide)).2.2.2.1⟩


/-- C10, counterexample. Two sent items of two categories (43 and 7), each with a
delivered event: both are candidates and both are rewritten, so an item is
selected and changed whichever single category is taken as the eligible one. -/
theorem category_counterexample :
    recent_queue twoCategories clock0 =
      [{ id := 1, resendEmailId := some 10, statusId := 2 },
       { id := 2, resendEmailId := some 20, statusId := 2 }] ∧
    updateQuery twoCategories twoDelivered clock0 =
      { store := [{ id := 1, resendEmailId := some 10, statusId := 4, categoryId := 43,
                    createdAt := 5, lastEmailSentAt := some 200, updatedAt := 1000 },
                  { id := 2, resendEmailId := some 20, statusId := 4, categoryId := 7,
                    createdAt := 5, lastEmailSentAt := some 220, updatedAt := 1000 }],
        rowCount := 2 } := by
  decide

theorem eligible_withCategory (c : Clock) (g : QueueRow → Int) (q : QueueRow) :
    eligible c (withCategory g q) = eligible c q := rfl

theorem toRecent_withCategory (g : QueueRow → Int) (q : QueueRow) :
    toRecent (withCategory g q) = toRecent q := rfl

theorem updateRow_withCategory (un : List UpdateRow) (now : Int) (g : QueueRow → Int)
    (q : QueueRow) :
    updateRow un now (withCategory g q) =
      { updateRow un now q with categoryId := g q } := by
  unfold updateRow withCategory
  dsimp only
  cases un.find? (fun u => decide (u.queue_id = q.id)) <;> rfl

theorem recent_queue_withCategory (store : List QueueRow) (c : Clock) (g : QueueRow → Int) :
    recent_queue (store.map (withCategory g)) c = recent_queue store c := by
  rw [recent_queue_eq, recent_queue_eq]
  unfold eligibleRows
  rw [List.filter_map, ← List.map_take, List.map_map]
  rfl

/-- C10, as amended. An item is eligible exactly when its status is in the open
set and its `createdAt` is inside the recency window; the statement does not
read `categoryId`: with other categories in the queue the candidates, the rows
of `updates_needed` and the row count are the same, and every row ends as it
would have, with the category it has. -/
theorem category_not_read (store : List QueueRow) (events : List EmailEvent) (c : Clock)
    (g : QueueRow → Int) :
    (∀ q, q ∈ eligibleRows store c ↔
      q ∈ store ∧ q.statusId ∈ openStatuses ∧ c.sixMonthsAgo ≤ q.createdAt) ∧
    recent_queue (store.map (withCategory g)) c = recent_queue store c ∧
    computeUpdates (store.map (withCategory g)) events c = computeUpdates store events c ∧
    (updateQuery (store.map (withCategory g)) events c).rowCount =
      (updateQuery store events c).rowCount ∧
    (updateQuery (store.map (withCategory g)) events c).store =
      store.map (fun q =>
        { updateRow (computeUpdates store events c) c.now q with categoryId := g q }) := by
  have h2 := recent_queue_withCategory store c g
  have h3 : computeUpdates (store.map (withCategory g)) events c =
      computeUpdates store events c := by
    unfold computeUpdates
    rw [h2]
  refine ⟨?_, h2, h3, ?_, ?_⟩
  · intro q
    unfold eligibleRows eligible
    rw [List.mem_filter]
    simp only [Bool.and_eq_true, decide_eq_true_eq]
  · unfold updateQuery applyUpdate
    dsimp only
    rw [h3, List.filter_map, List.length_map]
    rfl
  · unfold updateQuery applyUpdate
    dsimp only
    rw [h3, List.map_map]
    apply List.map_congr_left
    intro q _
    exact updateRow_withCategory _ _ g q



theorem rankedEvents_append (rq : List RecentRow) (a b : List EmailEvent) :
    rankedEvents rq (a ++ b) = rankedEvents rq a ++ rankedEvents rq b := by
  unfold rankedEvents
  exact List.filterMap_append _ _ _

theorem rankedEvents_unmapped (rq : List RecentRow) {extra : List EmailEvent}
    (h : ∀ e ∈ extra, ∀ s, e.statusId = some s → s ∉ rankedStatuses) :
    rankedEvents rq extra = [] := by
  rw [List.eq_nil_iff_forall_not_mem]
  intro r hr
  obtain ⟨e, he, s, hs, hranked, _⟩ := mem_rankedEvents.1 hr
  exact h e he s hs hranked

/-- C11. Unmapped status codes are inert as event inputs: events whose status is
null or not in the rank table, added anywhere in the log, change neither the
rows of `relevant_events`, nor the join, nor `updates_needed`, nor the result of
the statement (queue and row count), nor the outcome of the handler. -/
theorem unmapped_events_inert (store : List QueueRow) (pre extra post : List EmailEvent)
    (c : Clock) (env : Env) (fault : DbFault)
    (h : ∀ e ∈ extra, ∀ s, e.statusId = some s → s ∉ rankedStatuses) :
    relevant_events (recent_queue store c) (pre ++ extra ++ post) =
      relevant_events (recent_queue store c) (pre ++ post) ∧
    computeDeltas store (pre ++ extra ++ post) c = computeDeltas store (pre ++ post) c ∧
    computeUpdates store (pre ++ extra ++ post) c = computeUpdates store (pre ++ post) c ∧
    updateQuery store (pre ++ extra ++ post) c = updateQuery store (pre ++ post) c ∧
    handler env fault store (pre ++ extra ++ post) c = handler env fault store (pre ++ post) c := by
  have hr : ∀ rq : List RecentRow,
      rankedEvents rq (pre ++ extra ++ post) = rankedEvents rq (pre ++ post) := by
    intro rq
    rw [rankedEvents_append, rankedEvents_append, rankedEvents_unmapped rq h,
      List.append_nil, ← rankedEvents_append]
  have h1 : relevant_events (recent_queue store c) (pre ++ extra ++ post) =
      relevant_events (recent_queue store c) (pre ++ post) := by
    unfold relevant_events
    rw [hr]
  have h2 : computeDeltas store (pre ++ extra ++ post) c =
      computeDeltas store (pre ++ post) c := by
    unfold computeDeltas
    rw [h1]
  have h3 : computeUpdates store (pre ++ extra ++ post) c =
      computeUpdates store (pre ++ post) c := by
    rw [computeUpdates_eq, computeUpdates_eq, h2]
  have h4 : updateQuery store (pre ++ extra ++ post) c = updateQuery store (pre ++ post) c := by
    unfold updateQuery
    rw [h3]
  refine ⟨h1, h2, h3, h4, ?_⟩
  unfold handler
  rw [h4]

/-- C11, at the item that bounced and was delivered, with an event of null status
and an event of status 3 added to the log. -/
theorem unmapped_events_inert_witness :
    updateQuery oneItem (bouncedThenDelivered ++ unmappedEvents ++ []) clock0 =
      updateQuery oneItem (bouncedThenDelivered ++ []) clock0 ∧
    handler envOk DbFault.healthy oneItem (bouncedThenDelivered ++ unmappedEvents ++ []) clock0 =
      handler envOk DbFault.healthy oneItem (bouncedThenDelivered ++ []) clock0 :=
  ⟨(unmapped_events_inert oneItem bouncedThenDelivered unmappedEvents [] clock0 envOk
      DbFault.healthy (by decide)).2.2.2.1,
   (unmapped_events_inert oneItem bouncedThenDelivered unmappedEvents [] clock0 envOk
      DbFault.healthy (by decide)).2.2.2.2⟩

/-! ## The first sorted row when an event is appended -/


theorem head?_orderedInsert (a : RankedEvent) (l : List RankedEvent) :
    (List.orderedInsert OrderLe a l).head? =
      match l.head? with
      | none => some a
      | some h => if OrderLe a h then some a else some h := by
  cases l with
  | nil => rfl
  | cons b l =>
    by_cases hab : OrderLe a b
    · rw [List.orderedInsert_of_le OrderLe l hab]
      simp [hab]
    · simp [List.orderedInsert, hab]

theorem head?_orderBy_cons (a : RankedEvent) (l : List RankedEvent) :
    (orderBy (a :: l)).head? =
      match (orderBy l).head? with
      | none => some a
      | some h => if OrderLe a h then some a else some h :=
  head?_orderedInsert a (orderBy l)

/-- The first row of the sorted rows when a row is added at the end of the
input: the row added is first only when the former first row may not stand
before it. -/
theorem head?_orderBy_append (x : RankedEvent) :
    ∀ l : List RankedEvent,
      (orderBy (l ++ [x])).head? =
        match (orderBy l).head? with
        | none => some x
        | some h => if OrderLe h x then some h else some x := by
  intro l
  induction l with
  | nil => rfl
  | cons a l ih =>
    rw [List.cons_append, head?_orderBy_cons, head?_orderBy_cons, ih]
    cases hl : (orderBy l).head? with
    | none => rfl
    | some h' =>
      dsimp only
      by_cases hhx : OrderLe h' x
      · by_cases hah : OrderLe a h'
        · have hax : OrderLe a x := orderLe_trans hah hhx
          simp only [hhx, hah, hax, if_true]
        · simp only [hhx, hah, if_true, if_false]
      · by_cases hah : OrderLe a h'
        · simp only [hhx, hah, if_true, if_false]
        · have hxh : OrderLe x h' := (orderLe_total h' x).resolve_left hhx
          have hax : ¬ OrderLe a x := fun hax => hah (orderLe_trans hax hxh)
          simp only [hhx, hah, hax, if_false]


theorem prioLe_antisymm {a b : Option Nat} (h1 : prioLe a b = true) (h2 : prioLe b a = true) :
    a = b := by
  cases a <;> cases b <;> simp_all [prioLe]
  omega

theorem winner_eq_head (rq : List RecentRow) (events : List EmailEvent) (k : Nat) :
    winner (relevant_events rq events) (some k) =
      (orderBy ((rankedEvents rq events).filter
        (fun e => decide (some k = some e.resendEmailId)))).head? := by
  rw [winner_relevant_events, find?_eq_head?_filter, filter_orderBy]

theorem winner_of_none (re : List RankedEvent) : winner re none = none := by
  unfold winner
  rw [List.find?_eq_none]
  intro x _
  simp

theorem rankedEvents_singleton (rq : List RecentRow) (e : EmailEvent) :
    rankedEvents rq [e] = [] ∨
      ∃ s, e.statusId = some s ∧ s ∈ rankedStatuses ∧
        some e.resendEmailId ∈ rq.map (fun q => q.resendEmailId) ∧
        rankedEvents rq [e] = [rankRow e s] := by
  unfold rankedEvents
  rw [List.filterMap_cons]
  cases hs : e.statusId with
  | none => left; rfl
  | some s =>
    dsimp only
    by_cases hc : s ∈ rankedStatuses ∧ some e.resendEmailId ∈ rq.map (fun q => q.resendEmailId)
    · right
      rw [if_pos hc]
      exact ⟨s, rfl, hc.1, hc.2, rfl⟩
    · left
      rw [if_neg hc]
      rfl

theorem not_orderLe_same_rid {w x : RankedEvent} (hrid : w.resendEmailId = x.resendEmailId)
    (hle : prioLe w.priority_order x.priority_order = true) (hn : ¬ OrderLe w x) :
    w.priority_order = x.priority_order ∧ w.createdAt < x.createdAt := by
  unfold OrderLe orderLe at hn
  simp only [Bool.or_eq_true, Bool.and_eq_true, decide_eq_true_eq, Bool.not_eq_true',
    not_or, not_and, hrid, hle, true_and, Nat.lt_irrefl, not_false_eq_true,
    Bool.not_eq_false, forall_const] at hn
  obtain ⟨hxw, hc⟩ := hn
  exact ⟨prioLe_antisymm hle hxw, by have := hc hxw; omega⟩


theorem ranked_of_priority_order {s : Int} {n : Nat} (h : priority_order (some s) = some n) :
    s ∈ rankedStatuses := by
  unfold priority_order at h
  simp only [Option.some.injEq] at h
  simp only [rankedStatuses, List.mem_cons, List.mem_singleton, List.not_mem_nil, or_false]
  split_ifs at h with h7 h6 h8 h9 h4 h5
  · exact Or.inl h7
  · exact Or.inr (Or.inl h6)
  · exact Or.inr (Or.inr (Or.inl h8))
  · exact Or.inr (Or.inr (Or.inr (Or.inl h9)))
  · exact Or.inr (Or.inr (Or.inr (Or.inr (Or.inl h4))))
  · exact Or.inr (Or.inr (Or.inr (Or.inr (Or.inr h5))))

theorem prioLe_refl (a : Option Nat) : prioLe a a = true := by
  cases a <;> simp [prioLe]

/-- The winner of an id when an event that gives no ranked row of that id is
appended: the same. -/
theorem winner_append_other (rq : List RecentRow) (events : List EmailEvent) (d' : EmailEvent)
    (rid : Option Nat)
    (h : rankedEvents rq [d'] = [] ∨ rid ≠ some d'.resendEmailId) :
    winner (relevant_events rq (events ++ [d'])) rid = winner (relevant_events rq events) rid := by
  cases rid with
  | none => rw [winner_of_none, winner_of_none]
  | some k =>
    rw [winner_eq_head, winner_eq_head, rankedEvents_append, List.filter_append]
    have hfx : (rankedEvents rq [d']).filter
        (fun e => decide (some k = some e.resendEmailId)) = [] := by
      rcases h with h | h
      · rw [h]; rfl
      · rcases rankedEvents_singleton rq d' with hnil | ⟨s, _, _, _, hone⟩
        · rw [hnil]; rfl
        · rw [hone, List.filter_eq_nil_iff]
          intro a ha
          rw [List.mem_singleton.1 ha]
          simpa [rankRow] using h
    rw [hfx, List.append_nil]

/-- The winner of an id when an event that gives a ranked row of that id is
appended: the former winner when it may stand before the new row in the sort
order, the new row otherwise. -/
theorem winner_append_ranked (rq : List RecentRow) (events : List EmailEvent) (d' : EmailEvent)
    {s : Int} (hs : d'.statusId = some s) (hranked : s ∈ rankedStatuses)
    (hrq : some d'.resendEmailId ∈ rq.map (fun q => q.resendEmailId)) {w : RankedEvent}
    (hw : winner (relevant_events rq events) (some d'.resendEmailId) = some w) :
    winner (relevant_events rq (events ++ [d'])) (some d'.resendEmailId) =
      if OrderLe w (rankRow d' s) then some w else some (rankRow d' s) := by
  have hone : rankedEvents rq [d'] = [rankRow d' s] := by
    rcases rankedEvents_singleton rq d' with hnil | ⟨s', hs', _, _, hone⟩
    · have hmem : rankRow d' s ∈ rankedEvents rq [d'] :=
        mem_rankedEvents.2 ⟨d', List.mem_singleton.2 rfl, s, hs, hranked, hrq, rfl⟩
      rw [hnil] at hmem
      cases hmem
    · rw [hone, Option.some.inj (hs.symm.trans hs')]
  have hfx : [rankRow d' s].filter
      (fun e => decide (some d'.resendEmailId = some e.resendEmailId)) = [rankRow d' s] := by
    rw [List.filter_eq_self]
    intro a ha
    rw [List.mem_singleton.1 ha]
    simp [rankRow]
  rw [winner_eq_head, rankedEvents_append, List.filter_append, hone, hfx, head?_orderBy_append,
    ← winner_eq_head, hw]

theorem orderLe_of_prio_ne {w x : RankedEvent} (hrid : w.resendEmailId = x.resendEmailId)
    (hle : prioLe w.priority_order x.priority_order = true)
    (hne : w.priority_order ≠ x.priority_order) : OrderLe w x := by
  have hxw : prioLe x.priority_order w.priority_order = false := by
    cases h : prioLe x.priority_order w.priority_order with
    | false => rfl
    | true => exact absurd (prioLe_antisymm hle h) hne
  unfold OrderLe orderLe
  simp [hrid, hle, hxw]

theorem orderLe_of_createdAt_le {w x : RankedEvent} (hrid : w.resendEmailId = x.resendEmailId)
    (hle : prioLe w.priority_order x.priority_order = true)
    (hc : x.createdAt ≤ w.createdAt) : OrderLe w x := by
  unfold OrderLe orderLe
  cases h : prioLe x.priority_order w.priority_order <;> simp [hrid, hle, h, hc]

theorem not_orderLe_of_later {w x : RankedEvent}
    (hrid : w.resendEmailId = x.resendEmailId)
    (hp : x.priority_order = w.priority_order) (hc : w.createdAt < x.createdAt) :
    ¬ OrderLe w x := by
  unfold OrderLe orderLe
  have hnc : ¬ x.createdAt ≤ w.createdAt := by omega
  simp [hrid, hp, prioLe_refl, hnc]

/-- C12, counterexample. The log holds a bounced event (observed at 100, inserted at 200) and a
complained event (observed at 50, inserted at 300) of one item: the resolver
gives (6, 50).  With a duplicate of the bounced event appended (same id, status
and `webhookReceivedAt`, inserted at 400) it gives (7, 100). -/
theorem duplicate_event_counterexample :
    ({ resendEmailId := 10, statusId := some 7, webhookReceivedAt := 100, createdAt := 200 }
      : EmailEvent) ∈ outOfOrderEvents ∧
    relevant_events (recent_queue oneItem clock0) outOfOrderEvents =
      [{ resendEmailId := 10, event_status_id := 6, webhookReceivedAt := 50,
         priority_order := some 1, createdAt := 300 }] ∧
    relevant_events (recent_queue oneItem clock0) (outOfOrderEvents ++ [bouncedAgain]) =
      [{ resendEmailId := 10, event_status_id := 7, webhookReceivedAt := 100,
         priority_order := some 1, createdAt := 400 }] := by
  decide

/-- C12, as amended. Appending a duplicate `d'` of an event `d` of the log (same
`resendEmailId`, `statusId` and `webhookReceivedAt`, any `createdAt`):
the rank of the winning event of every id stays the same, and the winner of an
id is the former winner or the duplicate.  When `d` has the rank of the winner
of its id and `d'` was inserted later than that winner, the duplicate is the
new winner, so the output of that id is the status and `webhookReceivedAt` of
`d`.  When `d` has another rank than the winner, or `d'` was inserted earlier
than the winner, or the id is not the id of `d`, the winner stays; an id
without a winner stays without one. -/
theorem duplicate_event (rq : List RecentRow) (events : List EmailEvent) (d d' : EmailEvent)
    (hd : d ∈ events) (hrid : d'.resendEmailId = d.resendEmailId)
    (hst : d'.statusId = d.statusId) (hwra : d'.webhookReceivedAt = d.webhookReceivedAt)
    (rid : Option Nat) :
    (winner (relevant_events rq (events ++ [d'])) rid).map (fun w => w.priority_order) =
      (winner (relevant_events rq events) rid).map (fun w => w.priority_order) ∧
    (winner (relevant_events rq (events ++ [d'])) rid = winner (relevant_events rq events) rid ∨
      ∃ s, d.statusId = some s ∧ rid = some d.resendEmailId ∧
        winner (relevant_events rq (events ++ [d'])) rid = some (rankRow d' s)) ∧
    (∀ w s, winner (relevant_events rq events) rid = some w →
      rid = some d.resendEmailId → d.statusId = some s →
      priority_order (some s) = w.priority_order → w.createdAt < d'.createdAt →
      winner (relevant_events rq (events ++ [d'])) rid = some (rankRow d' s) ∧
      (rankRow d' s).event_status_id = s ∧
      (rankRow d' s).webhookReceivedAt = d.webhookReceivedAt) ∧
    (∀ w, winner (relevant_events rq events) rid = some w →
      ((∀ s, d.statusId = some s → priority_order (some s) ≠ w.priority_order) ∨
        d'.createdAt < w.createdAt ∨ rid ≠ some d.resendEmailId) →
      winner (relevant_events rq (events ++ [d'])) rid = some w) ∧
    (winner (relevant_events rq events) rid = none →
      winner (relevant_events rq (events ++ [d'])) rid = none) := by
  -- the two ways the appended event can bear on the id
  have hcases : (rankedEvents rq [d'] = [] ∨ rid ≠ some d'.resendEmailId) ∨
      ∃ s w, d'.statusId = some s ∧ s ∈ rankedStatuses ∧
        some d'.resendEmailId ∈ rq.map (fun q => q.resendEmailId) ∧
        rid = some d'.resendEmailId ∧
        winner (relevant_events rq events) rid = some w ∧
        w.resendEmailId = d'.resendEmailId ∧
        prioLe w.priority_order (priority_order (some s)) = true := by
    by_cases hr : rid = some d'.resendEmailId
    · rcases rankedEvents_singleton rq d' with hnil | ⟨s, hs, hranked, hrq, _⟩
      · exact Or.inl (Or.inl hnil)
      · right
        have hds : d.statusId = some s := hst ▸ hs
        have hmem : rankRow d s ∈ rankedEvents rq events :=
          mem_rankedEvents.2 ⟨d, hd, s, hds, hranked, hrid ▸ hrq, rfl⟩
        obtain ⟨w, hw⟩ := winner_exists hmem
        obtain ⟨_, hwrid, hmin⟩ := winner_spec hw
        have hwr : w.resendEmailId = d.resendEmailId := (Option.some.inj hwrid).symm
        refine ⟨s, w, hs, hranked, hrq, hr, ?_, hwr.trans hrid.symm, ?_⟩
        · rw [hr, hrid]; exact hw
        · exact orderLe_prio (hmin (rankRow d s) hmem hwr.symm) hwr
    · exact Or.inl (Or.inr hr)
  rcases hcases with hother | ⟨s, w, hs, hranked, hrq, hr, hw, hwr, hle⟩
  · have heq := winner_append_other rq events d' rid hother
    refine ⟨by rw [heq], Or.inl heq, ?_, ?_, ?_⟩
    · intro w s hw hr hds hp hc
      exfalso
      obtain ⟨hwmem, _, _⟩ := winner_spec hw
      obtain ⟨e, _, s', _, hr', hrq', hwe⟩ := mem_rankedEvents.1 hwmem
      have hwp : w.priority_order = priority_order (some s') := by rw [hwe]; rfl
      obtain ⟨n, hn, _⟩ := priority_order_ranked hr'
      have hsr : s ∈ rankedStatuses := ranked_of_priority_order (hp.trans (hwp.trans hn))
      have hd's : d'.statusId = some s := hst.trans hds
      have hwrid : w.resendEmailId = e.resendEmailId := by rw [hwe]; rfl
      have hrq2 : some d'.resendEmailId ∈ rq.map (fun q => q.resendEmailId) := by
        have h1 := (winner_spec hw).2.1
        rw [hr, ← hrid] at h1
        rw [h1, hwrid]; exact hrq'
      rcases hother with h | h
      · have hmem : rankRow d' s ∈ rankedEvents rq [d'] :=
          mem_rankedEvents.2 ⟨d', List.mem_singleton.2 rfl, s, hd's, hsr, hrq2, rfl⟩
        rw [h] at hmem
        cases hmem
      · exact h (by rw [hr, hrid])
    · intro w hw _
      rw [heq]; exact hw
    · intro hnone
      rw [heq]; exact hnone
  · have hnew := winner_append_ranked rq events d' hs hranked hrq (hr ▸ hw)
    rw [← hr] at hnew
    have hsame : w.resendEmailId = (rankRow d' s).resendEmailId := hwr
    have hxp : (rankRow d' s).priority_order = priority_order (some s) := rfl
    have hds : d.statusId = some s := hst ▸ hs
    have hrd : rid = some d.resendEmailId := by rw [hr, hrid]
    by_cases hwx : OrderLe w (rankRow d' s)
    · rw [if_pos hwx] at hnew
      refine ⟨by rw [hnew, hw], Or.inl (hnew.trans hw.symm), ?_, ?_, ?_⟩
      · intro w2 s2 hw2 _ hds2 hp hc
        exfalso
        have hww : w2 = w := Option.some.inj (hw2.symm.trans hw)
        have hss : s2 = s := Option.some.inj (hds2.symm.trans hds)
        subst hww hss
        exact not_orderLe_of_later hsame (hxp.trans hp) hc hwx
      · intro w2 hw2 _
        rw [hnew, ← hw2, hw]
      · intro hnone
        rw [hnone] at hw; cases hw
    · rw [if_neg hwx] at hnew
      obtain ⟨hp, hc⟩ := not_orderLe_same_rid hsame hle hwx
      refine ⟨?_, Or.inr ⟨s, hds, hrd, hnew⟩, ?_, ?_, ?_⟩
      · rw [hnew, hw]
        simp only [Option.map_some']
        rw [hxp, hp]; rfl
      · intro w2 s2 _ _ hds2 _ _
        have hss : s2 = s := Option.some.inj (hds2.symm.trans hds)
        subst hss
        exact ⟨hnew, rfl, hwra⟩
      · intro w2 hw2 hcond
        exfalso
        have hww : w2 = w := Option.some.inj (hw2.symm.trans hw)
        subst hww
        rcases hcond with h | h | h
        · exact h s hds (hxp.symm.trans hp.symm)
        · have : w2.createdAt < d'.createdAt := hc
          omega
        · exact h hrd
      · intro hnone
        rw [hnone] at hw; cases hw

/-- C12 as amended, at the out-of-order log and the duplicate of its bounced
event: the duplicate, inserted at 400, has the rank of the winner (inserted at
300) and becomes the winner; the rank of the winner stays 1. -/
theorem duplicate_event_witness :
    winner (relevant_events (recent_queue oneItem clock0) (outOfOrderEvents ++ [bouncedAgain]))
        (some 10) = some (rankRow bouncedAgain 7) ∧
    (winner (relevant_events (recent_queue oneItem clock0) (outOfOrderEvents ++ [bouncedAgain]))
        (some 10)).map (fun w => w.priority_order) =
      (winner (relevant_events (recent_queue oneItem clock0) outOfOrderEvents)
        (some 10)).map (fun w => w.priority_order) :=
  ⟨((duplicate_event (recent_queue oneItem clock0) outOfOrderEvents
      { resendEmailId := 10, statusId := some 7, webhookReceivedAt := 100, createdAt := 200 }
      bouncedAgain (by decide) rfl rfl rfl (some 10)).2.2.1
      { resendEmailId := 10, event_status_id := 6, webhookReceivedAt := 50,
        priority_order := some 1, createdAt := 300 } 7
      (by decide) rfl rfl (by decide) (by decide)).1,
   (duplicate_event (recent_queue oneItem clock0) outOfOrderEvents
      { resendEmailId := 10, statusId := some 7, webhookReceivedAt := 100, createdAt := 200 }
      bouncedAgain (by decide) rfl rfl rfl (some 10)).1⟩

/-- C13, counterexample. With `DB_USER` absent the handler raises
`Database credentials not configured` instead of returning a result; the queue
is not touched. -/
theorem failure_signalling_counterexample :
    handler envNoUser DbFault.healthy oneItem deliveredOnce clock0 =
      (Outcome.thrown "Database credentials not configured", oneItem) := by
  decide

/-- C13, as amended. When `DB_USER` and `DB_PASSWORD` are both set, the handler
returns, whatever the database does: a success result (status 200,
`success = true`, the row count and `moreToProcess`) when connect and query
succeed, a failure result (status 500, `success = false`, the error message,
the queue untouched) when one of them fails.  When one of the two variables is
absent or empty, the handler raises before it connects and the queue is
untouched. -/
theorem handler_outcome (env : Env) (fault : DbFault) (store : List QueueRow)
    (events : List EmailEvent) (c : Clock) :
    (truthy env.DB_USER = true ∧ truthy env.DB_PASSWORD = true ∧
      ((fault = DbFault.healthy ∧
          handler env fault store events c =
            (Outcome.returned 200
              { success := true, batchSize := some (updateQuery store events c).rowCount,
                moreToProcess := some (decide ((updateQuery store events c).rowCount > 0)),
                error := none }, (updateQuery store events c).store)) ∨
        (fault ≠ DbFault.healthy ∧
          ∃ m, handler env fault store events c =
            (Outcome.returned 500
              { success := false, batchSize := none, moreToProcess := none,
                error := some m }, store)))) ∨
    ((truthy env.DB_USER = false ∨ truthy env.DB_PASSWORD = false) ∧
      handler env fault store events c =
        (Outcome.thrown "Database credentials not configured", store)) := by
  cases hu : truthy env.DB_USER with
  | false =>
    right
    refine ⟨Or.inl rfl, ?_⟩
    unfold handler
    simp [hu]
  | true =>
    cases hp : truthy env.DB_PASSWORD with
    | false =>
      right
      refine ⟨Or.inr rfl, ?_⟩
      unfold handler
      simp [hp]
    | true =>
      left
      refine ⟨rfl, rfl, ?_⟩
      cases fault with
      | healthy => left; exact ⟨rfl, handler_healthy env hu hp store events c⟩
      | connectFails m =>
        right
        refine ⟨(fun h => by cases h), m, ?_⟩
        unfold handler
        simp [hu, hp]
      | queryFails m =>
        right
        refine ⟨(fun h => by cases h), m, ?_⟩
        unfold handler
        simp [hu, hp]

end EmailStatus
